import Mathlib

/-!
# Cardid: extraction, Luhn validation and network classification

A shallow embedding of `src/src/cardid.c` (declarations in `src/include/cardid.h`).

Conventions of the embedding:

* a C `char` is an `Int` holding its value; a text is the `List Int` of the
  characters stored from the pointer on, the terminating NUL being either the
  first `0` of the list or its end;
* an array read `a[i]` is `a.getD i 0`;
* `int` arithmetic is arithmetic over `Int` (signed overflow is undefined in C,
  and no sum here reaches `2^31` below 238 million digits); the conversion
  `(unsigned)v` is `v % 2^32` and `(unsigned char)c` is `c % 256`;
* a pointer argument is an `Option`: `none` is the null pointer, `some x` a
  pointer to an object whose content is `x`; a function that writes through a
  pointer returns the new content;
* `isdigit` and `isspace` are those of the "C" locale, the program never
  changing its locale.
-/

namespace Cardid

/-! ## Data model (`cardid.h`) -/

/-- The enumeration `cardid_network`. -/
inductive cardid_network where
  | CARD_UNKNOWN
  | CARD_VISA
  | CARD_MASTERCARD
  | CARD_AMEX
  | CARD_DISCOVER
  deriving DecidableEq

/-- The record `cardid_result`. -/
structure cardid_result where
  network : cardid_network
  luhn_valid : Bool
  length : Int
  deriving DecidableEq

/-- The record `cardid_extract_result`. -/
structure cardid_extract_result where
  digit_count : Int
  found_non_digit : Bool
  overflowed : Bool
  deriving DecidableEq

/-- The constant `CARDID_MAX_DIGITS`. -/
def CARDID_MAX_DIGITS : Nat := 19

/-! ## Library functions used by the code -/

/-- The `isdigit` of `<ctype.h>`: the ten characters `'0'` to `'9'`. -/
def isdigit (c : Int) : Bool := decide (48 ≤ c ∧ c ≤ 57)

/-- The `isspace` of `<ctype.h>` in the "C" locale: space, and the five
characters `'\t'`, `'\n'`, `'\v'`, `'\f'`, `'\r'` (codes 9 to 13). -/
def isspace (c : Int) : Bool := decide (c = 32 ∨ (9 ≤ c ∧ c ≤ 13))

/-- The `memset(buf, 0, n)` of `<string.h>`: the first `n` bytes become zero.
The caller is to supply a buffer of at least `n` bytes; the model gives it
that size. -/
def memset_zero (buf : List Int) (n : Nat) : List Int :=
  List.replicate n 0 ++ buf.drop n

/-- The characters of a string literal, as a text. -/
def cstr (s : String) : List Int := s.toList.map (fun c => (c.toNat : Int))

/-! ## `cardid_luhn_digits` -/

/-- The loop of `cardid_luhn_digits`. The first argument is `i + 1` for the
loop index `i` (so `0` means that `i >= 0` fails and the loop is left), then
come `pos` and `sum`. -/
def luhn_loop (d : List Int) : Nat → Nat → Int → Bool
  | 0, _, sum => decide (Int.tmod sum 10 = 0)
  | i + 1, pos, sum =>
    let v : Int := d.getD i 0 - 48
    if v % 4294967296 > 9 then false
    else if pos &&& 1 ≠ 0 then
      let x : Int := v * 2
      luhn_loop d i (pos + 1) (sum + (if x > 9 then x - 9 else x))
    else luhn_loop d i (pos + 1) (sum + v)

/-- The function `cardid_luhn_digits(d, n)`: the loop starts at `i = n - 1`. -/
def cardid_luhn_digits (d : List Int) (n : Int) : Bool :=
  luhn_loop d n.toNat 0 0

/-! ## `prefix_n` and `len_in` -/

/-- The static function `prefix_n(s, n, total_len)`. -/
def prefix_n (s : List Int) (n : Nat) (total_len : Int) : Int :=
  if total_len < (n : Int) then -1
  else (List.range n).foldl (fun v i => v * 10 + (s.getD i 0 - 48)) 0

/-- The static function `len_in(len, lens, count)`. -/
def len_in (len : Int) (lens : List Int) (count : Nat) : Int :=
  if (List.range count).any (fun i => lens.getD i 0 == len) then 1 else 0

/-! ## `cardid_extract_digits` -/

/-- The state in which the loop of `cardid_extract_digits` is left. -/
structure extract_state where
  out_digits : List Int
  idx : Nat
  found_non_digit : Bool
  overflowed : Bool
  deriving DecidableEq

/-- The loop of `cardid_extract_digits`, over the characters that remain from
`input[i]` on; `overflowed` is still `false` whenever the loop body is
entered, since setting it leaves the loop. -/
def extract_loop (out_capacity : Int) :
    List Int → List Int → Nat → Bool → extract_state
  | [], out, idx, fnd => ⟨out, idx, fnd, false⟩
  | ch :: rest, out, idx, fnd =>
    if ch = 0 then ⟨out, idx, fnd, false⟩
    else
      let c : Int := ch % 256
      if (idx : Int) ≥ out_capacity - 1 then ⟨out, idx, fnd, true⟩
      else if isdigit c then extract_loop out_capacity rest (out.set idx c) (idx + 1) fnd
      else if !isspace c && c != 45 then extract_loop out_capacity rest out idx true
      else extract_loop out_capacity rest out idx fnd

/-- The function `cardid_extract_digits(input, out_digits, out_capacity)`: the
returned record, and the content of the buffer behind `out_digits` after the
call. -/
def cardid_extract_digits (input : Option (List Int)) (out_digits : Option (List Int))
    (out_capacity : Int) : cardid_extract_result × Option (List Int) :=
  match input, out_digits with
  | some s, some buf =>
    if out_capacity ≤ 0 then (⟨0, true, true⟩, some buf)
    else
      let st := extract_loop out_capacity s (memset_zero buf out_capacity.toNat) 0 false
      (⟨st.idx, st.found_non_digit, st.overflowed⟩, some (st.out_digits.set st.idx 0))
  | _, _ => (⟨0, true, true⟩, out_digits)

/-! ## `cardid_detect_network` -/

/-- The function `cardid_detect_network(s, len)`. Each block of the source,
`if (gate) { if (test) return X; }`, falls through to the next block when
its gate or its test fails. -/
def cardid_detect_network (s : List Int) (len : Int) : cardid_network :=
  if len = 15 ∧ (prefix_n s 2 len = 34 ∨ prefix_n s 2 len = 37) then
    cardid_network.CARD_AMEX
  else if (len = 13 ∨ len = 16 ∨ len = 19) ∧ prefix_n s 1 len = 4 then
    cardid_network.CARD_VISA
  else if len = 16 ∧ (51 ≤ prefix_n s 2 len ∧ prefix_n s 2 len ≤ 55) then
    cardid_network.CARD_MASTERCARD
  else if len = 16 ∧ (2221 ≤ prefix_n s 4 len ∧ prefix_n s 4 len ≤ 2720) then
    cardid_network.CARD_MASTERCARD
  else if (len = 16 ∨ len = 19) ∧ prefix_n s 4 len = 6011 then
    cardid_network.CARD_DISCOVER
  else if (len = 16 ∨ len = 19) ∧ prefix_n s 2 len = 65 then
    cardid_network.CARD_DISCOVER
  else if (len = 16 ∨ len = 19) ∧ (644 ≤ prefix_n s 3 len ∧ prefix_n s 3 len ≤ 649) then
    cardid_network.CARD_DISCOVER
  else if (len = 16 ∨ len = 19) ∧ (622126 ≤ prefix_n s 6 len ∧ prefix_n s 6 len ≤ 622925) then
    cardid_network.CARD_DISCOVER
  else cardid_network.CARD_UNKNOWN

/-! ## `cardid_analyze` -/

/-- The table `allowed` of `cardid_analyze`. -/
def allowed : List Int := [13, 15, 16, 19]

/-- The local buffer `digits` of `cardid_analyze` when it is declared; its
`CARDID_MAX_DIGITS + 1` bytes are all overwritten by the `memset` of
`cardid_extract_digits` before any of them is read. -/
def digits_init : List Int := List.replicate (CARDID_MAX_DIGITS + 1) 0

/-- The function `cardid_analyze(input, out, extract_meta)`: the content of
the records behind `out` and `extract_meta` after the call. -/
def cardid_analyze (input : Option (List Int)) (out : Option cardid_result)
    (extract_meta : Option cardid_extract_result) :
    Option cardid_result × Option cardid_extract_result :=
  match input, out with
  | some s, some _ =>
    let e := cardid_extract_digits (some s) (some digits_init) ((CARDID_MAX_DIGITS : Int) + 1)
    let r := e.1
    let digits := e.2.getD []
    let meta1 := extract_meta.map (fun _ => r)
    if r.digit_count = 0 ∨ r.overflowed = true then
      (some ⟨cardid_network.CARD_UNKNOWN, false, r.digit_count⟩, meta1)
    else if r.digit_count < 13 ∨ r.digit_count > 19 then
      (some ⟨cardid_network.CARD_UNKNOWN, false, r.digit_count⟩, meta1)
    else if len_in r.digit_count allowed 4 = 0 then
      (some ⟨cardid_network.CARD_UNKNOWN, false, r.digit_count⟩, meta1)
    else
      let v := cardid_luhn_digits digits r.digit_count
      (some ⟨if v then cardid_detect_network digits r.digit_count
             else cardid_network.CARD_UNKNOWN, v, r.digit_count⟩, meta1)
  | _, some _ => (some ⟨cardid_network.CARD_UNKNOWN, false, 0⟩, extract_meta)
  | _, none => (none, extract_meta)

/-! ## Reference definitions, in the words of the specification -/

/-- The contribution of a digit of value `v` at zero-based position `p`
(counted from the rightmost digit): the raw value when `p` is even, and twice
the value, minus 9 when that exceeds 9, when `p` is odd. -/
def luhn_weight (p : Nat) (v : Int) : Int :=
  if p % 2 = 0 then v else if 2 * v > 9 then 2 * v - 9 else 2 * v

/-- The weighted sum of the characters `cs`, the first of them standing at
position `p`, the next at `p + 1`, and so on. -/
def luhn_sum_from (p : Nat) : List Int → Int
  | [] => 0
  | c :: cs => luhn_weight p (c - 48) + luhn_sum_from (p + 1) cs

/-- The Luhn-weighted sum of a digit sequence, scanned from its rightmost digit. -/
def luhn_weighted_sum (d : List Int) : Int := luhn_sum_from 0 d.reverse

/-- The value of a sequence of digit characters read as a base-10 integer. -/
def digits_value (cs : List Int) : Int := cs.foldl (fun v c => v * 10 + (c - 48)) 0

/-- The `k`-digit numeric prefix of a digit sequence. -/
def prefix_value (s : List Int) (k : Nat) : Int := digits_value (s.take k)

/-- Amex: length exactly 15 and the 2-digit prefix is 34 or 37. -/
def amex_rule (s : List Int) (len : Int) : Prop :=
  len = 15 ∧ (prefix_value s 2 = 34 ∨ prefix_value s 2 = 37)

/-- Visa: length 13, 16 or 19 and the first digit is 4. -/
def visa_rule (s : List Int) (len : Int) : Prop :=
  (len = 13 ∨ len = 16 ∨ len = 19) ∧ prefix_value s 1 = 4

/-- Mastercard: length exactly 16 and the 2-digit prefix in [51,55] or the
4-digit prefix in [2221,2720]. -/
def mastercard_rule (s : List Int) (len : Int) : Prop :=
  len = 16 ∧ ((51 ≤ prefix_value s 2 ∧ prefix_value s 2 ≤ 55)
    ∨ (2221 ≤ prefix_value s 4 ∧ prefix_value s 4 ≤ 2720))

/-- Discover: length 16 or 19 and the 4-digit prefix is 6011, or the 2-digit
prefix is 65, or the 3-digit prefix is in [644,649], or the 6-digit prefix is
in [622126,622925]. -/
def discover_rule (s : List Int) (len : Int) : Prop :=
  (len = 16 ∨ len = 19) ∧ (prefix_value s 4 = 6011 ∨ prefix_value s 2 = 65
    ∨ (644 ≤ prefix_value s 3 ∧ prefix_value s 3 ≤ 649)
    ∨ (622126 ≤ prefix_value s 6 ∧ prefix_value s 6 ≤ 622925))

instance (s : List Int) (len : Int) : Decidable (amex_rule s len) := by
  unfold amex_rule; infer_instance

instance (s : List Int) (len : Int) : Decidable (visa_rule s len) := by
  unfold visa_rule; infer_instance

instance (s : List Int) (len : Int) : Decidable (mastercard_rule s len) := by
  unfold mastercard_rule; infer_instance

instance (s : List Int) (len : Int) : Decidable (discover_rule s len) := by
  unfold discover_rule; infer_instance

/-- The digits that `cardid_extract_digits` copies from a text without NUL
when room is no concern: the characters `c` with `isdigit((unsigned char)c)`,
each as its `unsigned char` value. -/
def code_digits (s : List Int) : List Int :=
  (s.filter (fun c => isdigit (c % 256))).map (fun c => c % 256)

/-! ## The table of valid cards of the test suite -/

/-- The inputs of the table `valid_cases` of `tests/test_cardid.c`, in order. -/
def valid_cases : List String :=
  ["4111111111111111", "4111-1111-1111-1111", "4111 1111 1111 1111", "4532015112830366",
   "4532-0151-1283-0366",
   "5555555555554444", "5555-5555-5555-4444", "2223003122003222", "2223-0031-2200-3222",
   "5105105105105100",
   "378282246310005", "3782-822463-10005", "371449635398431", "3714-496353-98431",
   "6011111111111117", "6011-1111-1111-1117", "6011000990139424", "6221260000000000",
   "6445644564456445", "6500000000000000"]

/-- The call of `test_full_analysis` on one input: `cardid_analyze` with a
result record and a metadata record. -/
def run_valid_case (input : String) : Option cardid_result × Option cardid_extract_result :=
  cardid_analyze (some (cstr input)) (some ⟨cardid_network.CARD_UNKNOWN, false, 0⟩)
    (some ⟨0, false, false⟩)

/-- The three assertions of `test_full_analysis` on a valid case: `luhn_valid`
is true, the length is positive, the extraction did not overflow. -/
def valid_case_passes (input : String) : Bool :=
  match run_valid_case input with
  | (some r, some m) => r.luhn_valid && decide (r.length > 0) && !m.overflowed
  | _ => false

/-! ## The rule blocks of `cardid_detect_network`, one by one -/

/-- The block "American Express" of `cardid_detect_network`: the label it
returns, or `none` when control falls through. -/
def amex_block (s : List Int) (len : Int) : Option cardid_network :=
  if len = 15 ∧ (prefix_n s 2 len = 34 ∨ prefix_n s 2 len = 37) then
    some cardid_network.CARD_AMEX
  else none

/-- The block "Visa" of `cardid_detect_network`. -/
def visa_block (s : List Int) (len : Int) : Option cardid_network :=
  if (len = 13 ∨ len = 16 ∨ len = 19) ∧ prefix_n s 1 len = 4 then
    some cardid_network.CARD_VISA
  else none

/-- The block "Mastercard" of `cardid_detect_network`. -/
def mastercard_block (s : List Int) (len : Int) : Option cardid_network :=
  if len = 16 ∧ (51 ≤ prefix_n s 2 len ∧ prefix_n s 2 len ≤ 55) then
    some cardid_network.CARD_MASTERCARD
  else if len = 16 ∧ (2221 ≤ prefix_n s 4 len ∧ prefix_n s 4 len ≤ 2720) then
    some cardid_network.CARD_MASTERCARD
  else none

/-- The block "Discover" of `cardid_detect_network`. -/
def discover_block (s : List Int) (len : Int) : Option cardid_network :=
  if (len = 16 ∨ len = 19) ∧ prefix_n s 4 len = 6011 then
    some cardid_network.CARD_DISCOVER
  else if (len = 16 ∨ len = 19) ∧ prefix_n s 2 len = 65 then
    some cardid_network.CARD_DISCOVER
  else if (len = 16 ∨ len = 19) ∧ (644 ≤ prefix_n s 3 len ∧ prefix_n s 3 len ≤ 649) then
    some cardid_network.CARD_DISCOVER
  else if (len = 16 ∨ len = 19) ∧ (622126 ≤ prefix_n s 6 len ∧ prefix_n s 6 len ≤ 622925) then
    some cardid_network.CARD_DISCOVER
  else none

/-- The label of the first block that returns, Unknown when none does. -/
def first_match : List (Option cardid_network) → cardid_network
  | [] => cardid_network.CARD_UNKNOWN
  | some n :: _ => n
  | none :: rest => first_match rest

/-- The classifier with its blocks evaluated in the given order. -/
def run_blocks (order : List (List Int → Int → Option cardid_network))
    (s : List Int) (len : Int) : cardid_network :=
  first_match (order.map (fun b => b s len))

/-- A character that is neither an ASCII digit, nor whitespace, nor `'-'`. -/
def stray_char (c : Int) : Bool := !isdigit c && !isspace c && c != 45

/-! ## Facts about the library functions -/

theorem isdigit_iff (c : Int) : isdigit c = true ↔ 48 ≤ c ∧ c ≤ 57 := by
  simp [isdigit]

theorem isdigit_mod_of_isdigit {c : Int} (h : isdigit c = true) : c % 256 = c := by
  rw [isdigit_iff] at h
  omega

/-! ## The Luhn check -/

theorem tmod_ten_eq_zero_iff (x : Int) : Int.tmod x 10 = 0 ↔ x % 10 = 0 := by
  constructor
  · intro h
    exact Int.emod_eq_zero_of_dvd (Int.dvd_of_tmod_eq_zero h)
  · intro h
    exact Int.tmod_eq_zero_of_dvd (Int.dvd_of_emod_eq_zero h)

/-- One round of the loop, the two branches on `pos & 1` read as one weight. -/
theorem luhn_loop_succ (d : List Int) (k pos : Nat) (sum : Int) :
    luhn_loop d (k + 1) pos sum
      = if (d.getD k 0 - 48) % 4294967296 > 9 then false
        else luhn_loop d k (pos + 1) (sum + luhn_weight pos (d.getD k 0 - 48)) := by
  simp only [luhn_loop, luhn_weight, Nat.and_one_is_mod]
  generalize d.getD k 0 - 48 = v
  have e : v * 2 = 2 * v := by ring
  by_cases hp : pos % 2 = 0 <;> simp [hp, e]

/-- On digits, the loop adds to `sum` the weighted sum of the characters that
remain to its left, the next of them at position `pos`. -/
theorem luhn_loop_digits (d : List Int) (h : ∀ c ∈ d, isdigit c = true) :
    ∀ (k pos : Nat) (sum : Int), k ≤ d.length →
      luhn_loop d k pos sum
        = decide ((sum + luhn_sum_from pos (d.take k).reverse) % 10 = 0) := by
  intro k
  induction k with
  | zero =>
    intro pos sum _
    simp [luhn_loop, luhn_sum_from, tmod_ten_eq_zero_iff]
  | succ k ih =>
    intro pos sum hk
    have hlt : k < d.length := hk
    have hc := (isdigit_iff d[k]).1 (h _ (List.getElem_mem hlt))
    have hget : d.getD k 0 = d[k] := List.getD_eq_getElem d 0 hlt
    have htake : (d.take (k + 1)).reverse = d[k] :: (d.take k).reverse := by
      rw [List.take_succ, List.getElem?_eq_getElem hlt]
      simp
    have hv : ¬ ((d[k] - 48) % 4294967296 > 9) := by omega
    rw [luhn_loop_succ, hget, if_neg hv, ih (pos + 1) _ (by omega), htake]
    simp only [luhn_sum_from, add_assoc]

/-- Claim C1. For every sequence of ASCII digits (of length at least 1, and
for the empty one as well), `cardid_luhn_digits` returns true exactly when
the Luhn-weighted sum (raw digit at even positions from the right, doubled
digit minus 9 when above 9 at odd positions) is divisible by 10. -/
theorem luhn_digits_iff_weighted_sum (d : List Int)
    (hdig : ∀ c ∈ d, isdigit c = true) :
    cardid_luhn_digits d (d.length : Int) = true ↔ luhn_weighted_sum d % 10 = 0 := by
  unfold cardid_luhn_digits luhn_weighted_sum
  rw [Int.toNat_ofNat, luhn_loop_digits d hdig d.length 0 0 (le_refl _)]
  simp

/-- Witness for claim C1: the four card numbers named by the specification
are digit sequences, and are accepted since their weighted sums are
multiples of 10. -/
theorem luhn_digits_iff_weighted_sum_witness :
    cardid_luhn_digits (cstr "4111111111111111") 16 = true
    ∧ cardid_luhn_digits (cstr "5555555555554444") 16 = true
    ∧ cardid_luhn_digits (cstr "378282246310005") 15 = true
    ∧ cardid_luhn_digits (cstr "6011111111111117") 16 = true :=
  ⟨(luhn_digits_iff_weighted_sum (cstr "4111111111111111") (by decide)).2 (by decide),
   (luhn_digits_iff_weighted_sum (cstr "5555555555554444") (by decide)).2 (by decide),
   (luhn_digits_iff_weighted_sum (cstr "378282246310005") (by decide)).2 (by decide),
   (luhn_digits_iff_weighted_sum (cstr "6011111111111117") (by decide)).2 (by decide)⟩

/-! ## The network classifier -/

theorem foldl_range_eq_foldl_take (s : List Int) :
    ∀ k : Nat, k ≤ s.length →
      (List.range k).foldl (fun v i => v * 10 + (s.getD i 0 - 48)) 0
        = (s.take k).foldl (fun v c => v * 10 + (c - 48)) 0 := by
  intro k
  induction k with
  | zero => intro _; simp
  | succ k ih =>
    intro hk
    have hlt : k < s.length := hk
    rw [List.range_succ, List.foldl_append, ih (by omega), List.take_succ,
      List.getElem?_eq_getElem hlt, List.foldl_append]
    simp [List.getElem?_eq_getElem hlt]

/-- Within the sequence, `prefix_n` computes the numeric prefix. -/
theorem prefix_n_eq_prefix_value (s : List Int) (k : Nat) (len : Int)
    (hk : (k : Int) ≤ len) (hlen : len ≤ (s.length : Int)) :
    prefix_n s k len = prefix_value s k := by
  unfold prefix_n prefix_value digits_value
  rw [if_neg (by omega)]
  exact foldl_range_eq_foldl_take s k (by omega)

/-- The numeric prefixes of a digit sequence of at least six digits are built
from six decimal digits. -/
theorem prefix_value_digits (s : List Int) (hdig : ∀ c ∈ s, isdigit c = true)
    (h6 : 6 ≤ s.length) :
    ∃ a b c d e f : Int, (0 ≤ a ∧ a ≤ 9) ∧ (0 ≤ b ∧ b ≤ 9) ∧ (0 ≤ c ∧ c ≤ 9)
      ∧ (0 ≤ d ∧ d ≤ 9) ∧ (0 ≤ e ∧ e ≤ 9) ∧ (0 ≤ f ∧ f ≤ 9)
      ∧ prefix_value s 1 = a
      ∧ prefix_value s 2 = 10 * a + b
      ∧ prefix_value s 3 = 100 * a + 10 * b + c
      ∧ prefix_value s 4 = 1000 * a + 100 * b + 10 * c + d
      ∧ prefix_value s 6 = 100000 * a + 10000 * b + 1000 * c + 100 * d + 10 * e + f := by
  match s, hdig, h6 with
  | a :: b :: c :: d :: e :: f :: rest, hdig, _ =>
    have ha := (isdigit_iff a).1 (hdig a (by simp))
    have hb := (isdigit_iff b).1 (hdig b (by simp))
    have hc := (isdigit_iff c).1 (hdig c (by simp))
    have hd := (isdigit_iff d).1 (hdig d (by simp))
    have he := (isdigit_iff e).1 (hdig e (by simp))
    have hf := (isdigit_iff f).1 (hdig f (by simp))
    refine ⟨a - 48, b - 48, c - 48, d - 48, e - 48, f - 48, by omega, by omega, by omega,
      by omega, by omega, by omega, ?_, ?_, ?_, ?_, ?_⟩ <;>
      simp only [prefix_value, digits_value, List.take, List.foldl] <;> ring

/-- A chain of tests whose conditions exclude one another across labels
returns each label exactly under the conditions of that label. -/
theorem chain_of_exclusive (A V M1 M2 D1 D2 D3 D4 : Prop)
    [Decidable A] [Decidable V] [Decidable M1] [Decidable M2]
    [Decidable D1] [Decidable D2] [Decidable D3] [Decidable D4]
    (hAV : A → ¬ V) (hAM : A → ¬ (M1 ∨ M2)) (hAD : A → ¬ (D1 ∨ D2 ∨ D3 ∨ D4))
    (hVM : V → ¬ (M1 ∨ M2)) (hVD : V → ¬ (D1 ∨ D2 ∨ D3 ∨ D4))
    (hMD : (M1 ∨ M2) → ¬ (D1 ∨ D2 ∨ D3 ∨ D4))
    (n : cardid_network)
    (hn : n = (if A then cardid_network.CARD_AMEX
      else if V then cardid_network.CARD_VISA
      else if M1 then cardid_network.CARD_MASTERCARD
      else if M2 then cardid_network.CARD_MASTERCARD
      else if D1 then cardid_network.CARD_DISCOVER
      else if D2 then cardid_network.CARD_DISCOVER
      else if D3 then cardid_network.CARD_DISCOVER
      else if D4 then cardid_network.CARD_DISCOVER
      else cardid_network.CARD_UNKNOWN)) :
    (n = cardid_network.CARD_AMEX ↔ A)
    ∧ (n = cardid_network.CARD_VISA ↔ V)
    ∧ (n = cardid_network.CARD_MASTERCARD ↔ (M1 ∨ M2))
    ∧ (n = cardid_network.CARD_DISCOVER ↔ (D1 ∨ D2 ∨ D3 ∨ D4))
    ∧ (n = cardid_network.CARD_UNKNOWN ↔
        ¬ A ∧ ¬ V ∧ ¬ (M1 ∨ M2) ∧ ¬ (D1 ∨ D2 ∨ D3 ∨ D4)) := by
  subst hn
  by_cases hA : A
  · simp_all
  by_cases hV : V
  · simp_all
  by_cases hM1 : M1
  · simp_all
  by_cases hM2 : M2
  · simp_all
  by_cases hD1 : D1
  · simp_all
  by_cases hD2 : D2
  · simp_all
  by_cases hD3 : D3
  · simp_all
  by_cases hD4 : D4
  · simp_all
  simp_all


/-- Claim C2. On a digit-only sequence holding at least `len` digits,
`cardid_detect_network` returns Amex, Visa, Mastercard or Discover exactly
when the rule of that network holds, and Unknown exactly when none holds. -/
theorem detect_network_eq_reference (s : List Int) (len : Int)
    (hdig : ∀ c ∈ s, isdigit c = true) (hlen : len ≤ (s.length : Int)) :
    (cardid_detect_network s len = cardid_network.CARD_AMEX ↔ amex_rule s len)
    ∧ (cardid_detect_network s len = cardid_network.CARD_VISA ↔ visa_rule s len)
    ∧ (cardid_detect_network s len = cardid_network.CARD_MASTERCARD ↔ mastercard_rule s len)
    ∧ (cardid_detect_network s len = cardid_network.CARD_DISCOVER ↔ discover_rule s len)
    ∧ (cardid_detect_network s len = cardid_network.CARD_UNKNOWN ↔
        ¬ amex_rule s len ∧ ¬ visa_rule s len ∧ ¬ mastercard_rule s len
          ∧ ¬ discover_rule s len) := by
  have hchain := chain_of_exclusive
    (len = 15 ∧ (prefix_n s 2 len = 34 ∨ prefix_n s 2 len = 37))
    ((len = 13 ∨ len = 16 ∨ len = 19) ∧ prefix_n s 1 len = 4)
    (len = 16 ∧ (51 ≤ prefix_n s 2 len ∧ prefix_n s 2 len ≤ 55))
    (len = 16 ∧ (2221 ≤ prefix_n s 4 len ∧ prefix_n s 4 len ≤ 2720))
    ((len = 16 ∨ len = 19) ∧ prefix_n s 4 len = 6011)
    ((len = 16 ∨ len = 19) ∧ prefix_n s 2 len = 65)
    ((len = 16 ∨ len = 19) ∧ (644 ≤ prefix_n s 3 len ∧ prefix_n s 3 len ≤ 649))
    ((len = 16 ∨ len = 19) ∧ (622126 ≤ prefix_n s 6 len ∧ prefix_n s 6 len ≤ 622925))
  by_cases hl : len = 13 ∨ len = 15 ∨ len = 16 ∨ len = 19
  · obtain ⟨a, b, c, d, e, f, ha, hb, hc, hd, he, hf, h1, h2, h3, h4, h6⟩ :=
      prefix_value_digits s hdig (by omega)
    have e1 := prefix_n_eq_prefix_value s 1 len (by omega) hlen
    have e2 := prefix_n_eq_prefix_value s 2 len (by omega) hlen
    have e3 := prefix_n_eq_prefix_value s 3 len (by omega) hlen
    have e4 := prefix_n_eq_prefix_value s 4 len (by omega) hlen
    have e6 := prefix_n_eq_prefix_value s 6 len (by omega) hlen
    rw [e1, e2, e3, e4, e6] at hchain
    have hres := hchain (by omega) (by omega) (by omega) (by omega) (by omega) (by omega)
      (cardid_detect_network s len) (by unfold cardid_detect_network; rw [e1, e2, e3, e4, e6])
    unfold amex_rule visa_rule mastercard_rule discover_rule
    simp only [and_or_left] at hres ⊢
    exact hres
  · have h13 : len ≠ 13 := fun h => hl (Or.inl h)
    have h15 : len ≠ 15 := fun h => hl (Or.inr (Or.inl h))
    have h16 : len ≠ 16 := fun h => hl (Or.inr (Or.inr (Or.inl h)))
    have h19 : len ≠ 19 := fun h => hl (Or.inr (Or.inr (Or.inr h)))
    unfold cardid_detect_network amex_rule visa_rule mastercard_rule discover_rule
    simp [h13, h15, h16, h19]

/-- Witness for claim C2: the five calls of the test suite. "1234567890123456"
with length 16 is classified Unknown, so that none of the four rules holds of
it; the four card numbers satisfy the rule of their network and are
classified accordingly. -/
theorem detect_network_eq_reference_witness :
    (cardid_detect_network (cstr "1234567890123456") 16 = cardid_network.CARD_UNKNOWN
      ∧ ¬ amex_rule (cstr "1234567890123456") 16
      ∧ ¬ visa_rule (cstr "1234567890123456") 16
      ∧ ¬ mastercard_rule (cstr "1234567890123456") 16
      ∧ ¬ discover_rule (cstr "1234567890123456") 16)
    ∧ cardid_detect_network (cstr "4111111111111111") 16 = cardid_network.CARD_VISA
    ∧ cardid_detect_network (cstr "5555555555554444") 16 = cardid_network.CARD_MASTERCARD
    ∧ cardid_detect_network (cstr "378282246310005") 15 = cardid_network.CARD_AMEX
    ∧ cardid_detect_network (cstr "6011111111111117") 16 = cardid_network.CARD_DISCOVER :=
  ⟨⟨by decide,
    (detect_network_eq_reference (cstr "1234567890123456") 16 (by decide)
      (by decide)).2.2.2.2.1 (by decide)⟩,
   (detect_network_eq_reference (cstr "4111111111111111") 16 (by decide)
      (by decide)).2.1.2 (by decide),
   (detect_network_eq_reference (cstr "5555555555554444") 16 (by decide)
      (by decide)).2.2.1.2 (by decide),
   (detect_network_eq_reference (cstr "378282246310005") 15 (by decide)
      (by decide)).1.2 (by decide),
   (detect_network_eq_reference (cstr "6011111111111117") 16 (by decide)
      (by decide)).2.2.2.1.2 (by decide)⟩

/-! ## The extraction loop -/

theorem code_digits_cons_digit (c : Int) (rest : List Int) (h : isdigit (c % 256) = true) :
    code_digits (c :: rest) = (c % 256) :: code_digits rest := by
  simp [code_digits, h]

theorem code_digits_cons_other (c : Int) (rest : List Int) (h : ¬ isdigit (c % 256) = true) :
    code_digits (c :: rest) = code_digits rest := by
  simp [code_digits, h]

/-- The buffer and the index in which the loop is left: the digits of the text
are written after the `idx` characters already there, as far as the room
`out_capacity - 1 - idx` allows. -/
theorem extract_loop_buffer (cap : Int) :
    ∀ (s : List Int), (∀ c ∈ s, c ≠ 0) → ∀ (pre post : List Int) (fnd : Bool),
      (cap - 1 - (pre.length : Int)).toNat ≤ post.length →
      (extract_loop cap s (pre ++ post) pre.length fnd).out_digits
          = pre ++ (code_digits s).take (cap - 1 - (pre.length : Int)).toNat
              ++ post.drop ((code_digits s).take (cap - 1 - (pre.length : Int)).toNat).length
      ∧ (extract_loop cap s (pre ++ post) pre.length fnd).idx
          = pre.length + ((code_digits s).take (cap - 1 - (pre.length : Int)).toNat).length := by
  intro s
  induction s with
  | nil => intro _ pre post fnd _; simp [extract_loop, code_digits]
  | cons c rest ih =>
    intro hnul pre post fnd hroom
    have hc0 : c ≠ 0 := hnul c (List.mem_cons_self c rest)
    have hrest : ∀ x ∈ rest, x ≠ 0 := fun x hx => hnul x (List.mem_cons_of_mem c hx)
    simp only [extract_loop, hc0, if_false]
    by_cases hov : (pre.length : Int) ≥ cap - 1
    · have hz : (cap - 1 - (pre.length : Int)).toNat = 0 := by omega
      simp [hov, hz]
    · rw [if_neg hov]
      by_cases hd : isdigit (c % 256) = true
      · rw [if_pos hd, code_digits_cons_digit c rest hd]
        obtain ⟨room, hroom1⟩ : ∃ room : Nat,
            (cap - 1 - (pre.length : Int)).toNat = room + 1 := ⟨(cap - 1 - (pre.length : Int)).toNat - 1, by omega⟩
        have hroom2 : (cap - 1 - ((pre ++ [c % 256]).length : Int)).toNat = room := by
          simp only [List.length_append, List.length_singleton]
          omega
        rw [hroom1] at hroom
        match post, hroom with
        | x :: xs, hroom =>
          have hset : (pre ++ x :: xs).set pre.length (c % 256) = (pre ++ [c % 256]) ++ xs := by
            simp [List.set_append]
          have hlen : pre.length + 1 = (pre ++ [c % 256]).length := by simp
          obtain ⟨h1, h2⟩ := ih hrest (pre ++ [c % 256]) xs fnd (by rw [hroom2]; simpa using hroom)
          rw [hroom2] at h1 h2
          rw [hset, hlen, h1, h2, hroom1]
          refine ⟨by simp, ?_⟩
          simp only [List.take_succ_cons, List.length_cons, List.length_append,
            List.length_singleton, List.length_nil]
          omega
      · rw [if_neg hd, code_digits_cons_other c rest hd]
        have := ih hrest pre post
        split_ifs
        · exact this true hroom
        · exact this fnd hroom

/-- The overflow flag: the loop is left by `break` exactly when some
character of the text is reached with the room used up, that is when the
text is not empty and the digits before its last character fill the room. -/
theorem extract_loop_overflowed (cap : Int) :
    ∀ (s : List Int), (∀ c ∈ s, c ≠ 0) → ∀ (out : List Int) (idx : Nat) (fnd : Bool),
      ((extract_loop cap s out idx fnd).overflowed = false ↔
        s = [] ∨ (idx : Int) + ((code_digits s.dropLast).length : Int) < cap - 1) := by
  intro s
  induction s with
  | nil => intro _ out idx fnd; simp [extract_loop]
  | cons c rest ih =>
    intro hnul out idx fnd
    have hc0 : c ≠ 0 := hnul c (List.mem_cons_self c rest)
    have hrest : ∀ x ∈ rest, x ≠ 0 := fun x hx => hnul x (List.mem_cons_of_mem c hx)
    simp only [extract_loop, hc0, if_false]
    by_cases hov : (idx : Int) ≥ cap - 1
    · rw [if_pos hov]
      simp
      omega
    · rw [if_neg hov]
      match rest, ih, hrest with
      | [], _, _ =>
        have : (idx : Int) < cap - 1 := by omega
        split_ifs <;> simp [extract_loop, code_digits, this]
      | y :: ys, ih, hrest =>
        have hdl : (c :: y :: ys).dropLast = c :: (y :: ys).dropLast := rfl
        rw [hdl]
        by_cases hd : isdigit (c % 256) = true
        · rw [if_pos hd, ih hrest, code_digits_cons_digit c _ hd]
          simp
          omega
        · rw [if_neg hd, code_digits_cons_other c _ hd]
          split_ifs <;> rw [ih hrest] <;> simp

theorem isdigit_mod_eq (c : Int) (h : -128 ≤ c ∧ c ≤ 255) : isdigit (c % 256) = isdigit c := by
  rw [Bool.eq_iff_iff, isdigit_iff, isdigit_iff]
  omega

/-- On characters in the range of `char`, the digits copied are the ASCII digits of the text. -/
theorem code_digits_eq_filter (s : List Int) (h : ∀ c ∈ s, -128 ≤ c ∧ c ≤ 255) :
    code_digits s = s.filter (fun c => isdigit c) := by
  unfold code_digits
  rw [List.filter_congr (fun x hx => isdigit_mod_eq x (h x hx))]
  conv_rhs => rw [← List.map_id (s.filter (fun c => isdigit c))]
  apply List.map_congr_left
  intro a ha
  exact isdigit_mod_of_isdigit (List.mem_filter.1 ha).2

theorem code_digits_append (s t : List Int) :
    code_digits (s ++ t) = code_digits s ++ code_digits t := by
  simp [code_digits]

theorem code_digits_isdigit (s : List Int) : ∀ c ∈ code_digits s, isdigit c = true := by
  intro c hc
  simp only [code_digits, List.mem_map, List.mem_filter] at hc
  obtain ⟨a, ⟨_, ha⟩, rfl⟩ := hc
  exact ha

theorem code_digits_singleton_length (c : Int) : (code_digits [c]).length ≤ 1 := by
  unfold code_digits
  rw [List.length_map]
  exact List.length_filter_le _ [c]

theorem code_digits_dropLast_le (s : List Int) :
    (code_digits s.dropLast).length ≤ (code_digits s).length := by
  rcases List.eq_nil_or_concat s with h | ⟨L, b, h⟩
  · subst h; simp
  · subst h; simp [code_digits_append]

theorem code_digits_le_dropLast_succ (s : List Int) :
    (code_digits s).length ≤ (code_digits s.dropLast).length + 1 := by
  rcases List.eq_nil_or_concat s with h | ⟨L, b, h⟩
  · subst h; simp [code_digits]
  · subst h
    have := code_digits_singleton_length b
    simp [code_digits_append]
    omega

/-- ASCII digits are among the digits that the code copies, whatever the other characters. -/
theorem filter_isdigit_length_le (s : List Int) :
    (s.filter (fun c => isdigit c)).length ≤ (code_digits s).length := by
  induction s with
  | nil => simp [code_digits]
  | cons c rest ih =>
    by_cases hd : isdigit c = true
    · have hm : isdigit (c % 256) = true := by rw [isdigit_mod_of_isdigit hd]; exact hd
      rw [code_digits_cons_digit c rest hm]
      simp [hd]
      exact ih
    · by_cases hm : isdigit (c % 256) = true
      · rw [code_digits_cons_digit c rest hm]
        simp [hd]
        omega
      · rw [code_digits_cons_other c rest hm]
        simp [hd]
        exact ih

/-- The flag `found_non_digit` stays false over digits, whitespace and dashes. -/
theorem extract_loop_found_false (cap : Int) :
    ∀ (s : List Int),
      (∀ c ∈ s, isdigit (c % 256) = true ∨ isspace (c % 256) = true ∨ c % 256 = 45) →
      ∀ (out : List Int) (idx : Nat),
        (extract_loop cap s out idx false).found_non_digit = false := by
  intro s
  induction s with
  | nil => intro _ out idx; simp [extract_loop]
  | cons c rest ih =>
    intro hsep out idx
    have hrest := fun x hx => hsep x (List.mem_cons_of_mem c hx)
    have hc := hsep c (List.mem_cons_self c rest)
    simp only [extract_loop]
    split_ifs with h0 hov hd hother
    · rfl
    · rfl
    · exact ih hrest _ _
    · rcases hc with h | h | h
      · exact absurd h hd
      · simp [h] at hother
      · simp [h] at hother
    · exact ih hrest _ _

/-- The result of `cardid_extract_digits` on a present text without NUL, for
a capacity of at least 1: the count, and
the buffer, which holds the copied digits, then zeros up to the capacity,
then what it held beyond the capacity. -/
theorem extract_digits_buffer (s buf : List Int) (cap : Int)
    (hnul : ∀ c ∈ s, c ≠ 0) (hcap : 1 ≤ cap) :
    (cardid_extract_digits (some s) (some buf) cap).1.digit_count
        = (((code_digits s).take (cap - 1).toNat).length : Int)
    ∧ (cardid_extract_digits (some s) (some buf) cap).2
        = some ((code_digits s).take (cap - 1).toNat
            ++ List.replicate (cap.toNat - ((code_digits s).take (cap - 1).toNat).length) 0
            ++ buf.drop cap.toNat) := by
  have hpos : ¬ cap ≤ 0 := by omega
  obtain ⟨h1, h2⟩ := extract_loop_buffer cap s hnul []
    (List.replicate cap.toNat 0 ++ buf.drop cap.toNat) false
    (by simp only [List.length_nil, List.length_append, List.length_replicate]; omega)
  simp only [List.nil_append, List.length_nil, Nat.cast_zero, sub_zero, Nat.zero_add] at h1 h2
  simp only [cardid_extract_digits, hpos, if_false, memset_zero, h1, h2]
  refine ⟨trivial, ?_⟩
  generalize hem : (code_digits s).take (cap - 1).toNat = em
  have hlen : em.length ≤ (cap - 1).toNat := by rw [← hem]; simp
  have hk : cap.toNat - em.length = (cap.toNat - em.length - 1) + 1 := by omega
  rw [List.drop_append_of_le_length (by simp; omega), List.drop_replicate, ← List.append_assoc,
    List.append_assoc em, List.set_append, if_neg (by omega), Nat.sub_self, hk,
    List.replicate_succ]
  simp

/-- The record returned for a present text and a capacity of at least 1 is
made of the state in which the loop is left. -/
theorem extract_digits_record (s buf : List Int) (cap : Int) (hcap : 1 ≤ cap) :
    (cardid_extract_digits (some s) (some buf) cap).1
      = ⟨((extract_loop cap s (memset_zero buf cap.toNat) 0 false).idx : Int),
         (extract_loop cap s (memset_zero buf cap.toNat) 0 false).found_non_digit,
         (extract_loop cap s (memset_zero buf cap.toNat) 0 false).overflowed⟩ := by
  have hpos : ¬ cap ≤ 0 := by omega
  simp [cardid_extract_digits, hpos]

/-- A text without overflow: the full outcome of `cardid_extract_digits`. -/
theorem extract_digits_no_overflow (s buf : List Int) (cap : Int)
    (hnul : ∀ c ∈ s, c ≠ 0) (hcap : 1 ≤ cap)
    (hsep : ∀ c ∈ s, isdigit (c % 256) = true ∨ isspace (c % 256) = true ∨ c % 256 = 45)
    (hfit : s = [] ∨ ((code_digits s.dropLast).length : Int) < cap - 1) :
    cardid_extract_digits (some s) (some buf) cap
      = (⟨((code_digits s).length : Int), false, false⟩,
         some (code_digits s ++ List.replicate (cap.toNat - (code_digits s).length) 0
           ++ buf.drop cap.toNat)) := by
  have hov := (extract_loop_overflowed cap s hnul (memset_zero buf cap.toNat) 0 false).2
    (by simpa using hfit)
  have hfnd := extract_loop_found_false cap s hsep (memset_zero buf cap.toNat) 0
  obtain ⟨hcount, hbuffer⟩ := extract_digits_buffer s buf cap hnul hcap
  have hall : (code_digits s).take (cap - 1).toNat = code_digits s := by
    apply List.take_of_length_le
    rcases hfit with h | h
    · subst h; simp [code_digits]
    · have := code_digits_le_dropLast_succ s
      omega
  rw [hall] at hcount hbuffer
  have hrec := extract_digits_record s buf cap hcap
  rw [hov, hfnd] at hrec
  rw [hrec] at hcount
  simp only at hcount
  rw [hcount] at hrec
  exact Prod.ext hrec hbuffer

/-- Characters that are digits, whitespace or dashes: in the range of `char`,
none of them NUL, and unchanged by the conversion to `unsigned char`. -/
theorem separators_facts (s : List Int)
    (hsep : ∀ c ∈ s, isdigit c = true ∨ isspace c = true ∨ c = 45) :
    (∀ c ∈ s, c ≠ 0) ∧ (∀ c ∈ s, -128 ≤ c ∧ c ≤ 255)
    ∧ (∀ c ∈ s, isdigit (c % 256) = true ∨ isspace (c % 256) = true ∨ c % 256 = 45) := by
  have key : ∀ c ∈ s, 9 ≤ c ∧ c ≤ 57 := by
    intro c hc
    rcases hsep c hc with h | h | h
    · rw [isdigit_iff] at h; omega
    · simp only [isspace, decide_eq_true_eq] at h; omega
    · omega
  refine ⟨fun c hc => by have := key c hc; omega, fun c hc => by have := key c hc; omega, ?_⟩
  intro c hc
  have hk := key c hc
  have hm : c % 256 = c := by omega
  rw [hm]
  exact hsep c hc

/-- Claim C7. Separator transparency: a text made only of ASCII digits,
whitespace and dashes, with fewer than `capacity - 1` digits, is extracted to
its digit subsequence (followed by zeros up to the capacity), with
`digit_count` the number of digits and both flags false; hence a second such
text with the same digit subsequence is extracted identically. -/
theorem extract_separator_transparency (s t buf : List Int) (cap : Int)
    (hsep : ∀ c ∈ s, isdigit c = true ∨ isspace c = true ∨ c = 45)
    (hfew : ((s.filter (fun c => isdigit c)).length : Int) < cap - 1) :
    cardid_extract_digits (some s) (some buf) cap
      = (⟨((s.filter (fun c => isdigit c)).length : Int), false, false⟩,
         some (s.filter (fun c => isdigit c)
           ++ List.replicate (cap.toNat - (s.filter (fun c => isdigit c)).length) 0
           ++ buf.drop cap.toNat))
    ∧ ((∀ c ∈ t, isdigit c = true ∨ isspace c = true ∨ c = 45) →
        t.filter (fun c => isdigit c) = s.filter (fun c => isdigit c) →
        cardid_extract_digits (some t) (some buf) cap
          = cardid_extract_digits (some s) (some buf) cap) := by
  have main : ∀ u : List Int, (∀ c ∈ u, isdigit c = true ∨ isspace c = true ∨ c = 45) →
      ((u.filter (fun c => isdigit c)).length : Int) < cap - 1 →
      cardid_extract_digits (some u) (some buf) cap
        = (⟨((u.filter (fun c => isdigit c)).length : Int), false, false⟩,
           some (u.filter (fun c => isdigit c)
             ++ List.replicate (cap.toNat - (u.filter (fun c => isdigit c)).length) 0
             ++ buf.drop cap.toNat)) := by
    intro u hu hlt
    obtain ⟨hnul, hrange, hsep2⟩ := separators_facts u hu
    have hcd := code_digits_eq_filter u hrange
    have hfit : u = [] ∨ ((code_digits u.dropLast).length : Int) < cap - 1 := by
      right
      have := code_digits_dropLast_le u
      rw [hcd] at this
      omega
    rw [extract_digits_no_overflow u buf cap hnul (by omega) hsep2 hfit, hcd]
  refine ⟨main s hsep hfew, fun ht heq => ?_⟩
  rw [main s hsep hfew, main t ht (by rw [heq]; exact hfew), heq]

/-- Witness for claim C7: at capacity 32 the three spellings named by the
specification are extracted to "4111111111111111", with count 16. -/
theorem extract_separator_transparency_witness :
    cardid_extract_digits (some (cstr "4111-1111-1111-1111")) (some (List.replicate 32 120)) 32
      = (⟨16, false, false⟩, some (cstr "4111111111111111" ++ List.replicate 16 0))
    ∧ cardid_extract_digits (some (cstr "4111 1111 1111 1111")) (some (List.replicate 32 120)) 32
      = cardid_extract_digits (some (cstr "4111-1111-1111-1111")) (some (List.replicate 32 120)) 32
    ∧ cardid_extract_digits (some (cstr "4111111111111111")) (some (List.replicate 32 120)) 32
      = cardid_extract_digits (some (cstr "4111-1111-1111-1111")) (some (List.replicate 32 120)) 32 :=
  ⟨(extract_separator_transparency (cstr "4111-1111-1111-1111") [] (List.replicate 32 120) 32
      (by decide) (by decide)).1.trans (by decide),
   (extract_separator_transparency (cstr "4111-1111-1111-1111") (cstr "4111 1111 1111 1111")
      (List.replicate 32 120) 32 (by decide) (by decide)).2 (by decide) (by decide),
   (extract_separator_transparency (cstr "4111-1111-1111-1111") (cstr "4111111111111111")
      (List.replicate 32 120) 32 (by decide) (by decide)).2 (by decide) (by decide)⟩

/-- The loop stops at a NUL: what follows it in memory is not read. -/
theorem extract_loop_append_nul (cap : Int) :
    ∀ (s : List Int), (∀ c ∈ s, c ≠ 0) → ∀ (rest out : List Int) (idx : Nat) (fnd : Bool),
      extract_loop cap (s ++ 0 :: rest) out idx fnd = extract_loop cap s out idx fnd := by
  intro s
  induction s with
  | nil => intro _ rest out idx fnd; simp [extract_loop]
  | cons c cs ih =>
    intro hnul rest out idx fnd
    have hc0 : c ≠ 0 := hnul c (List.mem_cons_self c cs)
    have hcs : ∀ x ∈ cs, x ≠ 0 := fun x hx => hnul x (List.mem_cons_of_mem c hx)
    simp only [List.cons_append, extract_loop, hc0, if_false, List.append_eq, ih hcs]

/-- Claim C8. Extraction is the identity on clean input: a string of ASCII
digits of length at most `capacity - 1` is written unchanged (followed by
zeros up to the capacity), with `digit_count` its length and both flags
false; extracting again from the buffer so written gives the same outcome. -/
theorem extract_clean_identity (s buf buf2 : List Int) (cap : Int)
    (hdig : ∀ c ∈ s, isdigit c = true) (hlen : (s.length : Int) ≤ cap - 1) :
    cardid_extract_digits (some s) (some buf) cap
      = (⟨(s.length : Int), false, false⟩,
         some (s ++ List.replicate (cap.toNat - s.length) 0 ++ buf.drop cap.toNat))
    ∧ cardid_extract_digits
        (some (s ++ List.replicate (cap.toNat - s.length) 0 ++ buf.drop cap.toNat))
        (some buf2) cap
      = (⟨(s.length : Int), false, false⟩,
         some (s ++ List.replicate (cap.toNat - s.length) 0 ++ buf2.drop cap.toNat)) := by
  obtain ⟨hnul, hrange, hsep2⟩ := separators_facts s (fun c hc => Or.inl (hdig c hc))
  have hfilter : s.filter (fun c => isdigit c) = s := List.filter_eq_self.2 hdig
  have hcd : code_digits s = s := by rw [code_digits_eq_filter s hrange, hfilter]
  have hfit : s = [] ∨ ((code_digits s.dropLast).length : Int) < cap - 1 := by
    rcases List.eq_nil_or_concat s with h | ⟨L, b, h⟩
    · exact Or.inl h
    · right
      subst h
      have hL : (code_digits L).length ≤ L.length := by
        unfold code_digits
        rw [List.length_map]
        exact List.length_filter_le _ L
      simp only [List.concat_eq_append, List.length_append, List.length_singleton,
        Nat.cast_add, Nat.cast_one] at hlen
      simp only [List.concat_eq_append, List.dropLast_concat]
      omega
  have first : ∀ b : List Int, cardid_extract_digits (some s) (some b) cap
      = (⟨(s.length : Int), false, false⟩,
         some (s ++ List.replicate (cap.toNat - s.length) 0 ++ b.drop cap.toNat)) := by
    intro b
    rw [extract_digits_no_overflow s b cap hnul (by omega) hsep2 hfit, hcd]
  refine ⟨first buf, ?_⟩
  have hk : cap.toNat - s.length = (cap.toNat - s.length - 1) + 1 := by omega
  have hpos : ¬ cap ≤ 0 := by omega
  rw [← first buf2, hk, List.replicate_succ, List.append_assoc, List.cons_append]
  simp only [cardid_extract_digits, hpos, if_false, extract_loop_append_nul cap s hnul]

/-- Witness for claim C8: "4111111111111111" at capacity 17, the smallest
that holds it, is written unchanged and extracted again to itself. -/
theorem extract_clean_identity_witness :
    cardid_extract_digits (some (cstr "4111111111111111")) (some (List.replicate 17 120)) 17
      = (⟨16, false, false⟩, some (cstr "4111111111111111" ++ [0]))
    ∧ cardid_extract_digits (some (cstr "4111111111111111" ++ [0]))
        (some (List.replicate 17 120)) 17
      = (⟨16, false, false⟩, some (cstr "4111111111111111" ++ [0])) :=
  ⟨(extract_clean_identity (cstr "4111111111111111") (List.replicate 17 120)
      (List.replicate 17 120) 17 (by decide) (by decide)).1.trans (by decide),
   (by decide : cardid_extract_digits (some (cstr "4111111111111111" ++ [0]))
        (some (List.replicate 17 120)) 17 = _).trans
     ((extract_clean_identity (cstr "4111111111111111") (List.replicate 17 120)
      (List.replicate 17 120) 17 (by decide) (by decide)).2.trans (by decide))⟩

/-- A text with more digits than the room `out_capacity - 1`: the overflow
flag is set and the count is `out_capacity - 1`. -/
theorem extract_digits_overflow (s buf : List Int) (cap : Int) (hcap : 1 ≤ cap)
    (hnul : ∀ c ∈ s, c ≠ 0)
    (hmany : cap - 1 < ((s.filter (fun c => isdigit c)).length : Int)) :
    (cardid_extract_digits (some s) (some buf) cap).1.overflowed = true
    ∧ (cardid_extract_digits (some s) (some buf) cap).1.digit_count = cap - 1 := by
  have hcd := filter_isdigit_length_le s
  have hdl := code_digits_le_dropLast_succ s
  obtain ⟨hcount, _⟩ := extract_digits_buffer s buf cap hnul hcap
  have htake : ((code_digits s).take (cap - 1).toNat).length = (cap - 1).toNat := by
    rw [List.length_take]
    omega
  constructor
  · rw [extract_digits_record s buf cap hcap]
    have hne : ¬ (s = [] ∨ ((0 : Nat) : Int) + ((code_digits s.dropLast).length : Int) < cap - 1) := by
      rintro (h | h)
      · subst h; simp at hmany; omega
      · omega
    have := (extract_loop_overflowed cap s hnul (memset_zero buf cap.toNat) 0 false).not.2 hne
    simpa using this
  · rw [hcount, htake]
    omega

/-- Claim C9. Overflow boundary: for a capacity of at least 1 and a text with
more than `capacity - 1` digit characters, `cardid_extract_digits` returns
`overflowed = true` and `digit_count = capacity - 1`, and the buffer holds
`capacity - 1` digits followed by the terminator. -/
theorem extract_overflow_boundary (s buf : List Int) (cap : Int) (hcap : 1 ≤ cap)
    (hnul : ∀ c ∈ s, c ≠ 0)
    (hmany : cap - 1 < ((s.filter (fun c => isdigit c)).length : Int)) :
    (cardid_extract_digits (some s) (some buf) cap).1.overflowed = true
    ∧ (cardid_extract_digits (some s) (some buf) cap).1.digit_count = cap - 1
    ∧ ∃ em : List Int, (em.length : Int) = cap - 1 ∧ (∀ c ∈ em, isdigit c = true)
        ∧ (cardid_extract_digits (some s) (some buf) cap).2
            = some (em ++ 0 :: buf.drop cap.toNat) := by
  obtain ⟨hov, hcount⟩ := extract_digits_overflow s buf cap hcap hnul hmany
  have hcd := filter_isdigit_length_le s
  obtain ⟨_, hbuffer⟩ := extract_digits_buffer s buf cap hnul hcap
  have htake : ((code_digits s).take (cap - 1).toNat).length = (cap - 1).toNat := by
    rw [List.length_take]
    omega
  refine ⟨hov, hcount, (code_digits s).take (cap - 1).toNat, ?_, ?_, ?_⟩
  · rw [htake]
    omega
  · intro c hc
    exact code_digits_isdigit s c (List.mem_of_mem_take hc)
  · rw [hbuffer, htake]
    have h1 : cap.toNat - (cap - 1).toNat = 1 := by omega
    rw [h1]
    simp

/-- Witness for claim C9: a text of 30 digits at capacity 10 overflows, with 9 digits kept. -/
theorem extract_overflow_boundary_witness :
    (cardid_extract_digits (some (cstr "123456789012345678901234567890"))
        (some (List.replicate 10 120)) 10).1.overflowed = true
    ∧ (cardid_extract_digits (some (cstr "123456789012345678901234567890"))
        (some (List.replicate 10 120)) 10).1.digit_count = 9 :=
  ⟨(extract_overflow_boundary (cstr "123456789012345678901234567890") (List.replicate 10 120) 10
      (by decide) (by decide) (by decide)).1,
   (extract_overflow_boundary (cstr "123456789012345678901234567890") (List.replicate 10 120) 10
      (by decide) (by decide) (by decide)).2.1⟩

/-! ## Rejection of non-digits by the Luhn check -/

theorem luhn_loop_non_digit (d : List Int) (i : Nat)
    (hbad : (d.getD i 0 - 48) % 4294967296 > 9) :
    ∀ (k pos : Nat) (sum : Int), i < k → luhn_loop d k pos sum = false := by
  intro k
  induction k with
  | zero => intro pos sum h; omega
  | succ k ih =>
    intro pos sum hik
    rw [luhn_loop_succ]
    by_cases hk : (d.getD k 0 - 48) % 4294967296 > 9
    · rw [if_pos hk]
    · rw [if_neg hk]
      have hne : i ≠ k := fun h => hk (h ▸ hbad)
      exact ih (pos + 1) _ (by omega)

/-- Claim C10. If one of the `n` scanned characters, at any position `i`, is
a character other than an ASCII digit, `cardid_luhn_digits(d, n)` returns
false. -/
theorem luhn_rejects_non_digit (d : List Int) (n : Int) (i : Nat)
    (hlt : i < d.length) (hin : (i : Int) < n)
    (hchar : -128 ≤ d[i] ∧ d[i] ≤ 255) (hbad : isdigit d[i] = false) :
    cardid_luhn_digits d n = false := by
  have hnd : ¬ (48 ≤ d[i] ∧ d[i] ≤ 57) := by
    rw [← isdigit_iff, hbad]
    simp
  apply luhn_loop_non_digit d i
  · rw [List.getD_eq_getElem d 0 hlt]
    omega
  · omega

/-- Witness for claim C10: a letter, a character below `'0'` and a byte above
127 (as a signed and as an unsigned `char`) make the check fail, wherever
they stand. -/
theorem luhn_rejects_non_digit_witness :
    cardid_luhn_digits (cstr "41111111111x1111") 16 = false
    ∧ cardid_luhn_digits (cstr "4111111111111111" ++ [47]) 17 = false
    ∧ cardid_luhn_digits ([-23] ++ cstr "4111111111111111") 17 = false
    ∧ cardid_luhn_digits ([233] ++ cstr "4111111111111111") 17 = false :=
  ⟨luhn_rejects_non_digit (cstr "41111111111x1111") 16 11 (by decide) (by decide) (by decide)
      (by decide),
   luhn_rejects_non_digit (cstr "4111111111111111" ++ [47]) 17 16 (by decide) (by decide)
      (by decide) (by decide),
   luhn_rejects_non_digit ([-23] ++ cstr "4111111111111111") 17 0 (by decide) (by decide)
      (by decide) (by decide),
   luhn_rejects_non_digit ([233] ++ cstr "4111111111111111") 17 0 (by decide) (by decide)
      (by decide) (by decide)⟩

/-! ## The analyzer -/

theorem digits_capacity : ((CARDID_MAX_DIGITS : Nat) : Int) + 1 = 20 := by
  simp [CARDID_MAX_DIGITS]

theorem len_in_allowed (n : Int) :
    len_in n allowed 4 = 0 ↔ ¬ (n = 13 ∨ n = 15 ∨ n = 16 ∨ n = 19) := by
  have hr : List.range 4 = [0, 1, 2, 3] := by decide
  simp only [len_in, allowed, hr, List.any_cons, List.any_nil, List.getD_cons_zero,
    List.getD_cons_succ, Bool.or_false, Bool.or_eq_true, beq_iff_eq]
  split_ifs with h
  · constructor
    · intro h'; exact absurd h' (by decide)
    · intro h'; exact absurd (by omega) h'
  · constructor
    · intro _; omega
    · intro _; rfl

/-- Claim C3. For a present input whose extraction into the 20-slot buffer
does not overflow and yields a digit count among 13, 15, 16 and 19,
`cardid_analyze` writes that count as length, the verdict of
`cardid_luhn_digits` on the buffer as `luhn_valid`, and as network the label
of `cardid_detect_network` on the buffer when the verdict is true, Unknown
otherwise. -/
theorem analyze_runs_pipeline (s : List Int) (o : cardid_result)
    (m : Option cardid_extract_result)
    (hov : (cardid_extract_digits (some s) (some digits_init) 20).1.overflowed = false)
    (hn : (cardid_extract_digits (some s) (some digits_init) 20).1.digit_count = 13
      ∨ (cardid_extract_digits (some s) (some digits_init) 20).1.digit_count = 15
      ∨ (cardid_extract_digits (some s) (some digits_init) 20).1.digit_count = 16
      ∨ (cardid_extract_digits (some s) (some digits_init) 20).1.digit_count = 19) :
    (cardid_analyze (some s) (some o) m).1
      = some ⟨if cardid_luhn_digits
                  ((cardid_extract_digits (some s) (some digits_init) 20).2.getD [])
                  (cardid_extract_digits (some s) (some digits_init) 20).1.digit_count = true
              then cardid_detect_network
                  ((cardid_extract_digits (some s) (some digits_init) 20).2.getD [])
                  (cardid_extract_digits (some s) (some digits_init) 20).1.digit_count
              else cardid_network.CARD_UNKNOWN,
              cardid_luhn_digits
                  ((cardid_extract_digits (some s) (some digits_init) 20).2.getD [])
                  (cardid_extract_digits (some s) (some digits_init) 20).1.digit_count,
              (cardid_extract_digits (some s) (some digits_init) 20).1.digit_count⟩ := by
  have hlen := (len_in_allowed
    (cardid_extract_digits (some s) (some digits_init) 20).1.digit_count).not.2 (not_not.2 hn)
  simp only [cardid_analyze, digits_capacity]
  rw [if_neg (by rw [hov]; simp; omega), if_neg (by omega), if_neg hlen]

/-- Witness for claim C3: the two scenarios of the specification. -/
theorem analyze_runs_pipeline_witness :
    (cardid_analyze (some (cstr "4111-1111-1111-1111"))
        (some ⟨cardid_network.CARD_UNKNOWN, false, 0⟩) none).1
      = some ⟨cardid_network.CARD_VISA, true, 16⟩
    ∧ (cardid_analyze (some (cstr "4111111111111112"))
        (some ⟨cardid_network.CARD_UNKNOWN, false, 0⟩) none).1
      = some ⟨cardid_network.CARD_UNKNOWN, false, 16⟩ :=
  ⟨(analyze_runs_pipeline (cstr "4111-1111-1111-1111") ⟨cardid_network.CARD_UNKNOWN, false, 0⟩
      none (by decide) (by decide)).trans (by decide),
   (analyze_runs_pipeline (cstr "4111111111111112") ⟨cardid_network.CARD_UNKNOWN, false, 0⟩
      none (by decide) (by decide)).trans (by decide)⟩

/-- Claim C4. For every input, absent or present, and every prior content of
the records, `cardid_analyze` writes a result, and in that result a false
`luhn_valid` comes with the network Unknown. -/
theorem analyze_invalid_is_unknown (input : Option (List Int)) (o : cardid_result)
    (m : Option cardid_extract_result) :
    ∃ r : cardid_result, (cardid_analyze input (some o) m).1 = some r
      ∧ (r.luhn_valid = false → r.network = cardid_network.CARD_UNKNOWN) := by
  cases input with
  | none => exact ⟨_, rfl, fun _ => rfl⟩
  | some s =>
    simp only [cardid_analyze]
    split_ifs with h1 h2 h3 h4
    · exact ⟨_, rfl, fun _ => rfl⟩
    · exact ⟨_, rfl, fun _ => rfl⟩
    · exact ⟨_, rfl, fun _ => rfl⟩
    · refine ⟨_, rfl, fun hv => ?_⟩
      simp only at hv
      rw [h4] at hv
      exact absurd hv (by decide)
    · exact ⟨_, rfl, fun _ => rfl⟩

/-- Witness for claim C4: on "4111111111111112", a Visa prefix with a wrong
check digit, the result written has `luhn_valid` false and the network
Unknown. -/
theorem analyze_invalid_is_unknown_witness :
    ∃ r : cardid_result,
      (cardid_analyze (some (cstr "4111111111111112"))
        (some ⟨cardid_network.CARD_VISA, true, 7⟩) none).1 = some r
      ∧ r.luhn_valid = false ∧ r.length = 16 ∧ r.network = cardid_network.CARD_UNKNOWN := by
  obtain ⟨r, hr, himp⟩ := analyze_invalid_is_unknown (some (cstr "4111111111111112"))
    ⟨cardid_network.CARD_VISA, true, 7⟩ none
  have hval : (cardid_analyze (some (cstr "4111111111111112"))
      (some ⟨cardid_network.CARD_VISA, true, 7⟩) none).1
      = some ⟨cardid_network.CARD_UNKNOWN, false, 16⟩ := by decide
  have hreq : r = ⟨cardid_network.CARD_UNKNOWN, false, 16⟩ :=
    Option.some.inj (hr.symm.trans hval)
  have hv : r.luhn_valid = false := by rw [hreq]
  have hl : r.length = 16 := by rw [hreq]
  exact ⟨r, hr, hv, hl, himp hv⟩

/-- Claim C5. For a present input whose extracted digit count is none of 13,
15, 16 and 19, `cardid_analyze` writes that count as length, `luhn_valid`
false and the network Unknown, whatever the Luhn check says of the digits. -/
theorem analyze_length_gate (s : List Int) (o : cardid_result)
    (m : Option cardid_extract_result)
    (hn : ¬ ((cardid_extract_digits (some s) (some digits_init) 20).1.digit_count = 13
      ∨ (cardid_extract_digits (some s) (some digits_init) 20).1.digit_count = 15
      ∨ (cardid_extract_digits (some s) (some digits_init) 20).1.digit_count = 16
      ∨ (cardid_extract_digits (some s) (some digits_init) 20).1.digit_count = 19)) :
    (cardid_analyze (some s) (some o) m).1
      = some ⟨cardid_network.CARD_UNKNOWN, false,
              (cardid_extract_digits (some s) (some digits_init) 20).1.digit_count⟩ := by
  have hlen := (len_in_allowed
    (cardid_extract_digits (some s) (some digits_init) 20).1.digit_count).2 hn
  simp only [cardid_analyze, digits_capacity]
  split_ifs with h1 h2
  · rfl
  · rfl
  · rfl

/-- Witness for claim C5: "1234" gives (4, false, Unknown), and so does, with
length 14, a number of 14 digits that passes the Luhn check. -/
theorem analyze_length_gate_witness :
    (cardid_analyze (some (cstr "1234")) (some ⟨cardid_network.CARD_VISA, true, 7⟩) none).1
      = some ⟨cardid_network.CARD_UNKNOWN, false, 4⟩
    ∧ cardid_luhn_digits (cstr "30569309025904") 14 = true
    ∧ (cardid_analyze (some (cstr "30569309025904"))
        (some ⟨cardid_network.CARD_VISA, true, 7⟩) none).1
      = some ⟨cardid_network.CARD_UNKNOWN, false, 14⟩ :=
  ⟨(analyze_length_gate (cstr "1234") ⟨cardid_network.CARD_VISA, true, 7⟩ none
      (by decide)).trans (by decide),
   by decide,
   (analyze_length_gate (cstr "30569309025904") ⟨cardid_network.CARD_VISA, true, 7⟩ none
      (by decide)).trans (by decide)⟩

/-- Claim C6. For every input with more than 19 digit characters,
`cardid_analyze` reports extraction metadata with `overflowed = true` and
writes the result (19, false, Unknown), whatever the first 19 digits are. -/
theorem analyze_overflow (s : List Int) (o : cardid_result) (m : cardid_extract_result)
    (hnul : ∀ c ∈ s, c ≠ 0)
    (hmany : 19 < (s.filter (fun c => isdigit c)).length) :
    (cardid_analyze (some s) (some o) (some m)).1
      = some ⟨cardid_network.CARD_UNKNOWN, false, 19⟩
    ∧ ∃ r : cardid_extract_result, (cardid_analyze (some s) (some o) (some m)).2 = some r
        ∧ r.overflowed = true ∧ r.digit_count = 19 := by
  obtain ⟨hov, hcount⟩ := extract_digits_overflow s digits_init 20 (by omega) hnul
    (by omega)
  have h19 : (cardid_extract_digits (some s) (some digits_init) 20).1.digit_count = 19 := by
    rw [hcount]; rfl
  simp only [cardid_analyze, digits_capacity]
  rw [if_pos (Or.inr hov), h19]
  exact ⟨rfl, _, rfl, hov, h19⟩

/-- Witness for claim C6: 99 copies of '1' give (19, false, Unknown) with the
overflow flag set, and so does the Luhn-valid 19-digit Visa number
"4111111111111111110" once a twentieth digit follows it. -/
theorem analyze_overflow_witness :
    (cardid_analyze (some (List.replicate 99 49)) (some ⟨cardid_network.CARD_VISA, true, 7⟩)
        (some ⟨0, false, false⟩))
      = (some ⟨cardid_network.CARD_UNKNOWN, false, 19⟩, some ⟨19, false, true⟩)
    ∧ (cardid_analyze (some (cstr "4111111111111111110"))
        (some ⟨cardid_network.CARD_UNKNOWN, false, 0⟩) (some ⟨0, false, false⟩)).1
      = some ⟨cardid_network.CARD_VISA, true, 19⟩
    ∧ (cardid_analyze (some (cstr "41111111111111111101"))
        (some ⟨cardid_network.CARD_UNKNOWN, false, 0⟩) (some ⟨0, false, false⟩)).1
      = some ⟨cardid_network.CARD_UNKNOWN, false, 19⟩ :=
  ⟨Prod.ext
      (analyze_overflow (List.replicate 99 49) ⟨cardid_network.CARD_VISA, true, 7⟩
        ⟨0, false, false⟩ (by decide) (by decide)).1
      (by decide),
   by decide,
   (analyze_overflow (cstr "41111111111111111101") ⟨cardid_network.CARD_UNKNOWN, false, 0⟩
      ⟨0, false, false⟩ (by decide) (by decide)).1⟩

/-! ## Single-digit errors -/

theorem luhn_sum_from_append (l1 l2 : List Int) :
    ∀ p : Nat, luhn_sum_from p (l1 ++ l2)
      = luhn_sum_from p l1 + luhn_sum_from (p + l1.length) l2 := by
  induction l1 with
  | nil => intro p; simp [luhn_sum_from]
  | cons c cs ih =>
    intro p
    have e : p + 1 + cs.length = p + (cs.length + 1) := by omega
    simp only [List.cons_append, luhn_sum_from, List.append_eq, ih (p + 1), List.length_cons, e]
    ring

/-- Two different digit values have different weights at the same position,
less than 10 apart. -/
theorem luhn_weight_diff (p : Nat) (v w : Int) (hv : 0 ≤ v ∧ v ≤ 9) (hw : 0 ≤ w ∧ w ≤ 9)
    (hne : v ≠ w) :
    luhn_weight p v - luhn_weight p w ≠ 0
    ∧ -9 ≤ luhn_weight p v - luhn_weight p w ∧ luhn_weight p v - luhn_weight p w ≤ 9 := by
  unfold luhn_weight
  split_ifs <;> omega

/-- On digits, the verdict of `cardid_luhn_digits` is the test of the weighted sum. -/
theorem luhn_digits_eq_decide (d : List Int) (hdig : ∀ c ∈ d, isdigit c = true) :
    cardid_luhn_digits d (d.length : Int) = decide (luhn_weighted_sum d % 10 = 0) := by
  unfold cardid_luhn_digits luhn_weighted_sum
  rw [Int.toNat_ofNat, luhn_loop_digits d hdig d.length 0 0 (le_refl _)]
  simp

/-- Replacing the digit `x` between `a` and `b` by a different digit `c`
turns an accepted sequence into a rejected one. -/
theorem luhn_single_digit_change (a b : List Int) (x c : Int)
    (hdig : ∀ y ∈ a ++ x :: b, isdigit y = true) (hc : isdigit c = true) (hne : c ≠ x)
    (hacc : cardid_luhn_digits (a ++ x :: b) ((a ++ x :: b).length : Int) = true) :
    cardid_luhn_digits (a ++ c :: b) ((a ++ c :: b).length : Int) = false := by
  have hdig2 : ∀ y ∈ a ++ c :: b, isdigit y = true := by
    intro y hy
    simp only [List.mem_append, List.mem_cons] at hy
    rcases hy with h | h | h
    · exact hdig y (by simp [h])
    · rw [h]; exact hc
    · exact hdig y (by simp [h])
  have hx := (isdigit_iff x).1 (hdig x (by simp))
  have hcc := (isdigit_iff c).1 hc
  rw [luhn_digits_eq_decide _ hdig] at hacc
  rw [luhn_digits_eq_decide _ hdig2]
  have hsum : ∀ z : Int, luhn_weighted_sum (a ++ z :: b)
      = luhn_sum_from 0 b.reverse
        + (luhn_weight b.length (z - 48) + luhn_sum_from (b.length + 1) a.reverse) := by
    intro z
    unfold luhn_weighted_sum
    rw [List.reverse_append, List.reverse_cons, List.append_assoc, luhn_sum_from_append]
    simp [luhn_sum_from]
  rw [hsum] at hacc ⊢
  have hw := luhn_weight_diff b.length (c - 48) (x - 48) (by omega) (by omega) (by omega)
  simp only [decide_eq_true_eq] at hacc
  simp only [decide_eq_false_iff_not]
  omega

/-- Claim C11. Single-digit error detection: in a digit-only sequence that
`cardid_luhn_digits` accepts, replacing the digit at any position `i` by a
different digit gives a sequence that it rejects; in particular so does
replacing the final digit `x` by `(x + 1) mod 10`. -/
theorem luhn_detects_single_digit_error :
    (∀ (d : List Int) (i : Nat) (c : Int) (hi : i < d.length),
      (∀ y ∈ d, isdigit y = true) → isdigit c = true → c ≠ d[i] →
      cardid_luhn_digits d (d.length : Int) = true →
      cardid_luhn_digits (d.set i c) (d.length : Int) = false)
    ∧ (∀ (p : List Int) (x : Int), (∀ y ∈ p ++ [x], isdigit y = true) →
        cardid_luhn_digits (p ++ [x]) ((p ++ [x]).length : Int) = true →
        cardid_luhn_digits (p ++ [48 + (x - 48 + 1) % 10]) ((p ++ [x]).length : Int)
          = false) := by
  constructor
  · intro d i c hi hdig hc hne hacc
    have hsplit : d = d.take i ++ d[i] :: d.drop (i + 1) := by
      rw [← List.drop_eq_getElem_cons hi, List.take_append_drop]
    have hset : d.set i c = d.take i ++ c :: d.drop (i + 1) := by
      rw [List.set_eq_take_append_cons_drop, if_pos hi]
    have hlen : (d.length : Int) = ((d.take i ++ c :: d.drop (i + 1)).length : Int) := by
      rw [← hset, List.length_set]
    rw [hset, hlen]
    apply luhn_single_digit_change (d.take i) (d.drop (i + 1)) d[i] c _ hc hne
    · rw [← hsplit]; exact hacc
    · rw [← hsplit]; exact hdig
  · intro p x hp hpacc
    have hx := (isdigit_iff x).1 (hp x (by simp))
    have hlen : ((p ++ [x]).length : Int) = ((p ++ [48 + (x - 48 + 1) % 10]).length : Int) := by
      simp
    rw [hlen]
    apply luhn_single_digit_change p [] x (48 + (x - 48 + 1) % 10) hp _ _ hpacc
    · rw [isdigit_iff]; omega
    · omega

/-- Witness for claim C11: "4111111111111111" is accepted; with its final
digit replaced by 2 it is rejected, both as a replacement at position 15 and
as the increment of the final digit. -/
theorem luhn_detects_single_digit_error_witness :
    cardid_luhn_digits (cstr "4111111111111111") 16 = true
    ∧ cardid_luhn_digits (cstr "4111111111111112") 16 = false
    ∧ cardid_luhn_digits (cstr "411111111111111" ++ [48 + (49 - 48 + 1) % 10]) 16 = false :=
  ⟨by decide,
   luhn_detects_single_digit_error.1 (cstr "4111111111111111") 15 50 (by decide)
      (by decide) (by decide) (by decide) (by decide),
   luhn_detects_single_digit_error.2 (cstr "411111111111111") 49 (by decide) (by decide)⟩

/-! ## The table of valid cards: evaluation -/

set_option maxRecDepth 100000 in
/-- Claim C12 (evaluation of the code). Of the 20 entries of `valid_cases`,
19 pass the three assertions; the entry "6500000000000000" does not: its
Luhn-weighted sum is 8, and `cardid_analyze` reports (16, false, Unknown),
with no overflow. -/
theorem valid_cases_failing_entry :
    valid_cases.length = 20
    ∧ valid_cases.filter (fun s => !valid_case_passes s) = ["6500000000000000"]
    ∧ luhn_weighted_sum (cstr "6500000000000000") = 8
    ∧ run_valid_case "6500000000000000"
        = (some ⟨cardid_network.CARD_UNKNOWN, false, 16⟩, some ⟨16, false, false⟩) := by
  refine ⟨by decide, by decide, by decide, by decide⟩

/-! ## The guard of `cardid_extract_digits` -/

/-- Claim C13. Called with an absent input, or with a capacity of 0 or less,
`cardid_extract_digits` returns `digit_count = 0`, `overflowed = true` and
`found_non_digit = true`, whatever the other arguments. -/
theorem extract_defensive_outcome (input out_digits : Option (List Int)) (cap : Int)
    (h : input = none ∨ cap ≤ 0) :
    (cardid_extract_digits input out_digits cap).1 = ⟨0, true, true⟩ := by
  unfold cardid_extract_digits
  rcases h with h | h
  · subst h; rfl
  · cases input <;> cases out_digits <;> simp [h]

/-- Witness for claim C13: the two calls of the test suite, on an absent
input and with capacity 0. -/
theorem extract_defensive_outcome_witness :
    (cardid_extract_digits none (some (List.replicate 32 120)) 32).1 = ⟨0, true, true⟩
    ∧ (cardid_extract_digits (some (cstr "1234567890")) (some (List.replicate 32 120)) 0).1
        = ⟨0, true, true⟩ :=
  ⟨extract_defensive_outcome none (some (List.replicate 32 120)) 32 (Or.inl rfl),
   extract_defensive_outcome (some (cstr "1234567890")) (some (List.replicate 32 120)) 0
     (Or.inr (by decide))⟩

/-- Claim C14, as stated, fails. With an absent input, the positive capacity
8 and a buffer that holds "1234", the buffer still holds "1234" after the
call: the sequence it holds, up to its first NUL, is "1234" and not the
empty sequence, and its position 0 holds '1', not the terminator. -/
theorem extract_absent_input_not_emptied :
    (0 : Int) < 8
    ∧ (cardid_extract_digits none (some (cstr "1234" ++ [0, 0, 0, 0])) 8).1 = ⟨0, true, true⟩
    ∧ (cardid_extract_digits none (some (cstr "1234" ++ [0, 0, 0, 0])) 8).2
        = some (cstr "1234" ++ [0, 0, 0, 0])
    ∧ (cstr "1234" ++ [0, 0, 0, 0]).takeWhile (fun c => decide (c ≠ 0)) = cstr "1234"
    ∧ cstr "1234" ≠ []
    ∧ ¬ (∀ (buf : List Int) (cap : Int), 0 < cap →
          ∃ out : List Int, (cardid_extract_digits none (some buf) cap).2 = some out
            ∧ out.getD 0 0 = 0) :=
  ⟨by decide, rfl, rfl, by decide, by decide,
   fun h =>
     match h (cstr "1234" ++ [0, 0, 0, 0]) 8 (by decide) with
     | ⟨out, hout, hzero⟩ => by
       have e : out = cstr "1234" ++ [0, 0, 0, 0] := (Option.some.inj hout).symm
       rw [e] at hzero
       exact absurd hzero (by decide)⟩

/-- Claim C14, amended. With an absent input `cardid_extract_digits` returns
through its guard, which serves all invalid arguments alike: it reports the
empty sequence by `digit_count = 0` (with both flags true) and writes nothing,
so that the buffer is left as it was, for every prior content and every
capacity; a buffer that held "1234" holds "1234" after the call. -/
theorem extract_absent_input_keeps_buffer :
    (∀ (buf : List Int) (cap : Int),
      cardid_extract_digits none (some buf) cap = (⟨0, true, true⟩, some buf))
    ∧ (cardid_extract_digits none (some (cstr "1234" ++ [0, 0, 0, 0])) 8).2
        = some (cstr "1234" ++ [0, 0, 0, 0])
    ∧ (cstr "1234" ++ [0, 0, 0, 0]).getD 0 0 ≠ 0 :=
  ⟨fun _ _ => rfl, rfl, by decide⟩

/-! ## The text of an input -/

/-- The loop reads an input up to its first NUL only. -/
theorem extract_loop_takeWhile (cap : Int) :
    ∀ (s out : List Int) (idx : Nat) (fnd : Bool),
      extract_loop cap s out idx fnd
        = extract_loop cap (s.takeWhile (fun c => decide (c ≠ 0))) out idx fnd := by
  intro s
  induction s with
  | nil => intro out idx fnd; rfl
  | cons c rest ih =>
    intro out idx fnd
    by_cases hc : c = 0
    · subst hc
      simp [extract_loop]
    · have ht : (c :: rest).takeWhile (fun c => decide (c ≠ 0))
          = c :: rest.takeWhile (fun c => decide (c ≠ 0)) := by
        simp [List.takeWhile_cons, hc]
      rw [ht]
      simp only [extract_loop, hc, if_false]
      rw [ih, ih out idx true, ih out idx fnd]

theorem extract_digits_takeWhile (s buf : List Int) (cap : Int) :
    cardid_extract_digits (some s) (some buf) cap
      = cardid_extract_digits (some (s.takeWhile (fun c => decide (c ≠ 0)))) (some buf) cap := by
  simp only [cardid_extract_digits]
  rw [extract_loop_takeWhile]

theorem takeWhile_no_nul (s : List Int) :
    ∀ c ∈ s.takeWhile (fun c => decide (c ≠ 0)), c ≠ 0 := by
  intro c hc
  simpa using List.mem_takeWhile_imp hc

/-- The outcome of `cardid_extract_digits` on any present input and for a
capacity of at least 1: some digits `em`, at most `out_capacity - 1` of them,
are counted and stand in the buffer, followed by zeros up to the capacity and
by what the buffer held beyond it. -/
theorem extract_digits_shape (s buf : List Int) (cap : Int) (hcap : 1 ≤ cap) :
    ∃ em : List Int, (∀ c ∈ em, isdigit c = true) ∧ (em.length : Int) ≤ cap - 1
      ∧ (cardid_extract_digits (some s) (some buf) cap).1.digit_count = (em.length : Int)
      ∧ (cardid_extract_digits (some s) (some buf) cap).2
          = some (em ++ List.replicate (cap.toNat - em.length) 0 ++ buf.drop cap.toNat) := by
  rw [extract_digits_takeWhile]
  obtain ⟨hcount, hbuffer⟩ := extract_digits_buffer
    (s.takeWhile (fun c => decide (c ≠ 0))) buf cap (takeWhile_no_nul s) hcap
  refine ⟨(code_digits (s.takeWhile (fun c => decide (c ≠ 0)))).take (cap - 1).toNat,
    ?_, ?_, hcount, hbuffer⟩
  · intro c hc
    exact code_digits_isdigit _ c (List.mem_of_mem_take hc)
  · rw [List.length_take]
    omega

/-- Claim C15. Output guarantee: for every present input, every capacity of
at least 1 and every prior content of the buffer, `digit_count` lies between
0 and `capacity - 1`, the buffer positions below `digit_count` hold ASCII
digits, every position from `digit_count` to `capacity - 1` holds zero, and
the buffer beyond the capacity is as it was. -/
theorem extract_output_guarantee (s buf : List Int) (cap : Int) (hcap : 1 ≤ cap) :
    0 ≤ (cardid_extract_digits (some s) (some buf) cap).1.digit_count
    ∧ (cardid_extract_digits (some s) (some buf) cap).1.digit_count ≤ cap - 1
    ∧ ∃ out : List Int, (cardid_extract_digits (some s) (some buf) cap).2 = some out
      ∧ (∀ j : Nat, (j : Int) < (cardid_extract_digits (some s) (some buf) cap).1.digit_count →
          isdigit (out.getD j 0) = true)
      ∧ (∀ j : Nat, (cardid_extract_digits (some s) (some buf) cap).1.digit_count ≤ (j : Int) →
          (j : Int) < cap → out.getD j 0 = 0)
      ∧ out.drop cap.toNat = buf.drop cap.toNat := by
  obtain ⟨em, hdig, hle, hcount, hbuffer⟩ := extract_digits_shape s buf cap hcap
  rw [hcount]
  refine ⟨by omega, hle, _, hbuffer, ?_, ?_, ?_⟩
  · intro j hj
    have hj2 : j < em.length := by omega
    rw [List.append_assoc, List.getD_eq_getElem?_getD, List.getElem?_append_left hj2,
      List.getElem?_eq_getElem hj2]
    exact hdig _ (List.getElem_mem hj2)
  · intro j hj1 hj2
    have hj3 : em.length ≤ j := by omega
    have hj4 : j - em.length < cap.toNat - em.length := by omega
    rw [List.append_assoc, List.getD_eq_getElem?_getD, List.getElem?_append_right hj3,
      List.getElem?_append_left (by simpa using hj4)]
    simp [hj4]
  · have hl : (em ++ List.replicate (cap.toNat - em.length) 0).length = cap.toNat := by
      simp only [List.length_append, List.length_replicate]
      omega
    have hd := List.drop_left (em ++ List.replicate (cap.toNat - em.length) 0)
      (buf.drop cap.toNat)
    rw [hl] at hd
    exact hd

/-- Witness for claim C15: a text of 12 digits among other characters, at
capacity 10 and over a buffer of twelve bytes 120: nine digits, the
terminator, and the last two bytes untouched. -/
theorem extract_output_guarantee_witness :
    cardid_extract_digits (some (cstr "12a34-56 78x9012")) (some (List.replicate 12 120)) 10
      = (⟨9, true, true⟩, some (cstr "123456789" ++ [0, 120, 120]))
    ∧ ∃ out : List Int,
      (cardid_extract_digits (some (cstr "12a34-56 78x9012"))
        (some (List.replicate 12 120)) 10).2 = some out
      ∧ out.drop 10 = [120, 120] :=
  ⟨by decide,
   match (extract_output_guarantee (cstr "12a34-56 78x9012") (List.replicate 12 120) 10
      (by decide)).2.2 with
   | ⟨out, hout, _, _, hdrop⟩ => ⟨out, hout, hdrop.trans (by decide)⟩⟩

/-! ## Inputs without digits -/

/-- Over characters that `isdigit` refuses, the loop writes nothing and, with
room left, does not overflow. -/
theorem extract_loop_no_digit (cap : Int) :
    ∀ (s : List Int), (∀ c ∈ s, isdigit (c % 256) = false) →
      ∀ (out : List Int) (idx : Nat) (fnd : Bool), (idx : Int) < cap - 1 →
        (extract_loop cap s out idx fnd).idx = idx
        ∧ (extract_loop cap s out idx fnd).overflowed = false := by
  intro s
  induction s with
  | nil => intro _ out idx fnd _; simp [extract_loop]
  | cons c rest ih =>
    intro hnd out idx fnd hidx
    have hc : ¬ isdigit (c % 256) = true := by
      rw [hnd c (List.mem_cons_self c rest)]; simp
    have hrest := fun x hx => hnd x (List.mem_cons_of_mem c hx)
    simp only [extract_loop]
    split_ifs with h0 hov hother
    · exact ⟨rfl, rfl⟩
    · omega
    · exact ih hrest out idx true hidx
    · exact ih hrest out idx fnd hidx

/-- Claim C16. For an absent input, and for every present input without a
digit character (the empty string among them), `cardid_analyze` writes
(length 0, `luhn_valid` false, Unknown); for such a present input the
metadata reported has `overflowed = false`. -/
theorem analyze_no_digits :
    (∀ (o : cardid_result) (m : Option cardid_extract_result),
      (cardid_analyze none (some o) m).1 = some ⟨cardid_network.CARD_UNKNOWN, false, 0⟩)
    ∧ (∀ (s : List Int) (o : cardid_result) (m : cardid_extract_result),
        (∀ c ∈ s, -128 ≤ c ∧ c ≤ 255) → (∀ c ∈ s, isdigit c = false) →
        (cardid_analyze (some s) (some o) (some m)).1
            = some ⟨cardid_network.CARD_UNKNOWN, false, 0⟩
        ∧ ∃ r : cardid_extract_result,
            (cardid_analyze (some s) (some o) (some m)).2 = some r
            ∧ r.overflowed = false ∧ r.digit_count = 0) := by
  refine ⟨fun _ _ => rfl, ?_⟩
  intro s o m hrange hnd
  have hnd2 : ∀ c ∈ s, isdigit (c % 256) = false := by
    intro c hc
    rw [isdigit_mod_eq c (hrange c hc)]
    exact hnd c hc
  have hrec := extract_digits_record s digits_init 20 (by omega)
  obtain ⟨hidx, hov⟩ := extract_loop_no_digit 20 s hnd2 (memset_zero digits_init (20 : Int).toNat)
    0 false (by omega)
  rw [hidx, hov] at hrec
  have hcount : (cardid_extract_digits (some s) (some digits_init) 20).1.digit_count = 0 := by
    rw [hrec]; rfl
  have hovf : (cardid_extract_digits (some s) (some digits_init) 20).1.overflowed = false := by
    rw [hrec]
  simp only [cardid_analyze, digits_capacity]
  rw [if_pos (Or.inl hcount), hcount]
  exact ⟨rfl, _, rfl, hovf, hcount⟩

/-- Witness for claim C16: the empty string, and a text of letters and
separators, give (0, false, Unknown) with `overflowed = false`. -/
theorem analyze_no_digits_witness :
    cardid_analyze (some (cstr "")) (some ⟨cardid_network.CARD_VISA, true, 7⟩)
        (some ⟨5, true, true⟩)
      = (some ⟨cardid_network.CARD_UNKNOWN, false, 0⟩, some ⟨0, false, false⟩)
    ∧ (cardid_analyze (some (cstr "no digits - at all")) (some ⟨cardid_network.CARD_VISA, true, 7⟩)
        (some ⟨5, true, true⟩)).1
      = some ⟨cardid_network.CARD_UNKNOWN, false, 0⟩
    ∧ (cardid_analyze none (some ⟨cardid_network.CARD_VISA, true, 7⟩) none).1
      = some ⟨cardid_network.CARD_UNKNOWN, false, 0⟩ :=
  ⟨Prod.ext
     (analyze_no_digits.2 (cstr "") ⟨cardid_network.CARD_VISA, true, 7⟩ ⟨5, true, true⟩
       (by decide) (by decide)).1
     (by decide),
   (analyze_no_digits.2 (cstr "no digits - at all") ⟨cardid_network.CARD_VISA, true, 7⟩
     ⟨5, true, true⟩ (by decide) (by decide)).1,
   analyze_no_digits.1 ⟨cardid_network.CARD_VISA, true, 7⟩ none⟩

/-! ## The flag `found_non_digit` and the analyzer -/

/-- The result that `cardid_analyze` writes depends on the input through the
count, the overflow flag and the buffer of the extraction only. -/
theorem analyze_congr (s1 s2 : List Int) (o : cardid_result)
    (m1 m2 : Option cardid_extract_result)
    (hcount : (cardid_extract_digits (some s1) (some digits_init) 20).1.digit_count
      = (cardid_extract_digits (some s2) (some digits_init) 20).1.digit_count)
    (hov : (cardid_extract_digits (some s1) (some digits_init) 20).1.overflowed
      = (cardid_extract_digits (some s2) (some digits_init) 20).1.overflowed)
    (hbuf : (cardid_extract_digits (some s1) (some digits_init) 20).2
      = (cardid_extract_digits (some s2) (some digits_init) 20).2) :
    (cardid_analyze (some s1) (some o) m1).1 = (cardid_analyze (some s2) (some o) m2).1 := by
  simp only [cardid_analyze, digits_capacity, hcount, hov, hbuf]
  split_ifs <;> rfl

/-- The count is the length of the sequence held by the buffer, up to its
first zero. -/
theorem extract_count_of_buffer (s buf : List Int) (cap : Int) (hcap : 1 ≤ cap) :
    (cardid_extract_digits (some s) (some buf) cap).1.digit_count
      = ((((cardid_extract_digits (some s) (some buf) cap).2.getD []).takeWhile
          (fun c => decide (c ≠ 0))).length : Int) := by
  obtain ⟨em, hdig, hle, hcount, hbuffer⟩ := extract_digits_shape s buf cap hcap
  have hk : cap.toNat - em.length = (cap.toNat - em.length - 1) + 1 := by omega
  have hnz : ∀ a ∈ em, (fun c => decide (c ≠ 0)) a = true := by
    intro a ha
    have := (isdigit_iff a).1 (hdig a ha)
    simp only [decide_eq_true_eq]
    omega
  rw [hcount, hbuffer, Option.getD_some, hk, List.replicate_succ, List.append_assoc,
    List.takeWhile_append_of_pos hnz]
  simp

/-- A string of ASCII digits of length at most `out_capacity - 1` is
extracted to itself, with both flags false. -/
theorem extract_digits_clean (t buf : List Int) (cap : Int)
    (hdig : ∀ c ∈ t, isdigit c = true) (hlen : (t.length : Int) ≤ cap - 1) :
    cardid_extract_digits (some t) (some buf) cap
      = (⟨(t.length : Int), false, false⟩,
         some (t ++ List.replicate (cap.toNat - t.length) 0 ++ buf.drop cap.toNat)) := by
  obtain ⟨hnul, hrange, hsep2⟩ := separators_facts t (fun c hc => Or.inl (hdig c hc))
  have hfilter : t.filter (fun c => isdigit c) = t := List.filter_eq_self.2 hdig
  have hcd : code_digits t = t := by rw [code_digits_eq_filter t hrange, hfilter]
  have hfit : t = [] ∨ ((code_digits t.dropLast).length : Int) < cap - 1 := by
    rcases List.eq_nil_or_concat t with h | ⟨L, b, h⟩
    · exact Or.inl h
    · right
      subst h
      have hL : (code_digits L).length ≤ L.length := by
        unfold code_digits
        rw [List.length_map]
        exact List.length_filter_le _ L
      simp only [List.concat_eq_append, List.length_append, List.length_singleton,
        Nat.cast_add, Nat.cast_one] at hlen
      simp only [List.concat_eq_append, List.dropLast_concat]
      omega
  rw [extract_digits_no_overflow t buf cap hnul (by omega) hsep2 hfit, hcd]

/-- A text whose extraction does not overflow is extracted as its ASCII digits are. -/
theorem extract_digits_of_no_overflow (s buf : List Int) (cap : Int) (hcap : 1 ≤ cap)
    (hnul : ∀ c ∈ s, c ≠ 0) (hrange : ∀ c ∈ s, -128 ≤ c ∧ c ≤ 255)
    (hov : (cardid_extract_digits (some s) (some buf) cap).1.overflowed = false) :
    (cardid_extract_digits (some s) (some buf) cap).1.digit_count
        = (cardid_extract_digits (some (s.filter (fun c => isdigit c))) (some buf) cap).1.digit_count
    ∧ (cardid_extract_digits (some (s.filter (fun c => isdigit c))) (some buf) cap).1.overflowed
        = false
    ∧ (cardid_extract_digits (some s) (some buf) cap).2
        = (cardid_extract_digits (some (s.filter (fun c => isdigit c))) (some buf) cap).2 := by
  rw [extract_digits_record s buf cap hcap] at hov
  have hfit := (extract_loop_overflowed cap s hnul (memset_zero buf cap.toNat) 0 false).1 hov
  have hcd := code_digits_eq_filter s hrange
  have hsucc := code_digits_le_dropLast_succ s
  have hlen : ((s.filter (fun c => isdigit c)).length : Int) ≤ cap - 1 := by
    rw [← hcd]
    rcases hfit with h | h
    · subst h; simp [code_digits]; omega
    · omega
  have hclean := extract_digits_clean (s.filter (fun c => isdigit c)) buf cap
    (fun c hc => (List.mem_filter.1 hc).2) hlen
  obtain ⟨hcount, hbuffer⟩ := extract_digits_buffer s buf cap hnul hcap
  have hall : (code_digits s).take (cap - 1).toNat = s.filter (fun c => isdigit c) := by
    rw [hcd]
    apply List.take_of_length_le
    omega
  rw [hall] at hcount hbuffer
  rw [hclean, hcount, hbuffer]
  exact ⟨rfl, rfl, rfl⟩

/-- Claim C17. The flag `found_non_digit` is informational only: two present
inputs whose extractions leave the same buffer and the same overflow flag get
the same result from `cardid_analyze`, whatever their `found_non_digit`
flags; and an input whose extraction does not overflow gets the same result
as its subsequence of ASCII digits. -/
theorem analyze_ignores_found_non_digit :
    (∀ (s1 s2 : List Int) (o : cardid_result) (m1 m2 : Option cardid_extract_result),
      (cardid_extract_digits (some s1) (some digits_init) 20).2
        = (cardid_extract_digits (some s2) (some digits_init) 20).2 →
      (cardid_extract_digits (some s1) (some digits_init) 20).1.overflowed
        = (cardid_extract_digits (some s2) (some digits_init) 20).1.overflowed →
      (cardid_analyze (some s1) (some o) m1).1 = (cardid_analyze (some s2) (some o) m2).1)
    ∧ (∀ (s : List Int) (o : cardid_result) (m : Option cardid_extract_result),
        (∀ c ∈ s, c ≠ 0) → (∀ c ∈ s, -128 ≤ c ∧ c ≤ 255) →
        (cardid_extract_digits (some s) (some digits_init) 20).1.overflowed = false →
        (cardid_analyze (some s) (some o) m).1
          = (cardid_analyze (some (s.filter (fun c => isdigit c))) (some o) m).1) := by
  constructor
  · intro s1 s2 o m1 m2 hbuf hov
    apply analyze_congr s1 s2 o m1 m2 _ hov hbuf
    rw [extract_count_of_buffer s1 digits_init 20 (by omega),
      extract_count_of_buffer s2 digits_init 20 (by omega), hbuf]
  · intro s o m hnul hrange hov
    obtain ⟨hcount, hov2, hbuf⟩ := extract_digits_of_no_overflow s digits_init 20 (by omega)
      hnul hrange hov
    exact analyze_congr s _ o m m hcount (hov.trans hov2.symm) hbuf

/-- Witness for claim C17: stray letters in a Luhn-valid 16-digit Visa number
set `found_non_digit`, and the result is still (16, true, Visa), that of the
digits alone. -/
theorem analyze_ignores_found_non_digit_witness :
    (cardid_extract_digits (some (cstr "4111x1111y1111z1111")) (some digits_init) 20).1
      = ⟨16, true, false⟩
    ∧ (cardid_analyze (some (cstr "4111x1111y1111z1111"))
        (some ⟨cardid_network.CARD_UNKNOWN, false, 0⟩) none).1
      = some ⟨cardid_network.CARD_VISA, true, 16⟩
    ∧ (cardid_analyze (some (cstr "4111x1111y1111z1111"))
        (some ⟨cardid_network.CARD_UNKNOWN, false, 0⟩) none).1
      = (cardid_analyze (some (cstr "4111-1111-1111-1111"))
        (some ⟨cardid_network.CARD_UNKNOWN, false, 0⟩) none).1 :=
  ⟨by decide,
   (analyze_ignores_found_non_digit.2 (cstr "4111x1111y1111z1111")
      ⟨cardid_network.CARD_UNKNOWN, false, 0⟩ none (by decide) (by decide) (by decide)).trans
      (by decide),
   analyze_ignores_found_non_digit.1 (cstr "4111x1111y1111z1111") (cstr "4111-1111-1111-1111")
      ⟨cardid_network.CARD_UNKNOWN, false, 0⟩ none none (by decide) (by decide)⟩

/-! ## Rule disjointness -/

theorem first_match_none (vals : List (Option cardid_network))
    (h : ∀ v ∈ vals, v = none) : first_match vals = cardid_network.CARD_UNKNOWN := by
  induction vals with
  | nil => rfl
  | cons v rest ih =>
    have hv := h v (List.mem_cons_self v rest)
    subst hv
    exact ih (fun x hx => h x (List.mem_cons_of_mem _ hx))

theorem first_match_unique (n : cardid_network) (vals : List (Option cardid_network))
    (h : ∀ v ∈ vals, v = none ∨ v = some n) (hex : some n ∈ vals) :
    first_match vals = n := by
  induction vals with
  | nil => simp at hex
  | cons v rest ih =>
    rcases h v (List.mem_cons_self v rest) with hv | hv
    · subst hv
      have hex2 : some n ∈ rest := by simpa using hex
      exact ih (fun x hx => h x (List.mem_cons_of_mem _ hx)) hex2
    · subst hv
      rfl

/-- With conditions that exclude one another across labels, every block
either falls through or returns the label of the chain, and some block
returns it unless the chain ends in Unknown, where all fall through. -/
theorem blocks_agree_with_chain (A V M1 M2 D1 D2 D3 D4 : Prop)
    [Decidable A] [Decidable V] [Decidable M1] [Decidable M2]
    [Decidable D1] [Decidable D2] [Decidable D3] [Decidable D4]
    (hAV : A → ¬ V) (hAM : A → ¬ (M1 ∨ M2)) (hAD : A → ¬ (D1 ∨ D2 ∨ D3 ∨ D4))
    (hVM : V → ¬ (M1 ∨ M2)) (hVD : V → ¬ (D1 ∨ D2 ∨ D3 ∨ D4))
    (hMD : (M1 ∨ M2) → ¬ (D1 ∨ D2 ∨ D3 ∨ D4))
    (n : cardid_network) (bA bV bM bD : Option cardid_network)
    (hn : n = (if A then cardid_network.CARD_AMEX
      else if V then cardid_network.CARD_VISA
      else if M1 then cardid_network.CARD_MASTERCARD
      else if M2 then cardid_network.CARD_MASTERCARD
      else if D1 then cardid_network.CARD_DISCOVER
      else if D2 then cardid_network.CARD_DISCOVER
      else if D3 then cardid_network.CARD_DISCOVER
      else if D4 then cardid_network.CARD_DISCOVER
      else cardid_network.CARD_UNKNOWN))
    (hbA : bA = if A then some cardid_network.CARD_AMEX else none)
    (hbV : bV = if V then some cardid_network.CARD_VISA else none)
    (hbM : bM = if M1 then some cardid_network.CARD_MASTERCARD
      else if M2 then some cardid_network.CARD_MASTERCARD else none)
    (hbD : bD = if D1 then some cardid_network.CARD_DISCOVER
      else if D2 then some cardid_network.CARD_DISCOVER
      else if D3 then some cardid_network.CARD_DISCOVER
      else if D4 then some cardid_network.CARD_DISCOVER else none) :
    (∀ v ∈ [bA, bV, bM, bD], v = none ∨ v = some n)
    ∧ ((n = cardid_network.CARD_UNKNOWN ∧ ∀ v ∈ [bA, bV, bM, bD], v = none)
        ∨ some n ∈ [bA, bV, bM, bD]) := by
  subst hn hbA hbV hbM hbD
  by_cases hA : A
  · simp_all
  by_cases hV : V
  · simp_all
  by_cases hM1 : M1
  · simp_all
  by_cases hM2 : M2
  · simp_all
  by_cases hD1 : D1
  · simp_all
  by_cases hD2 : D2
  · simp_all
  by_cases hD3 : D3
  · simp_all
  by_cases hD4 : D4
  · simp_all
  simp_all

/-- Any arrangement of block results that agree with the chain gives the
label of the chain. -/
theorem first_match_perm (n : cardid_network) (vals ref : List (Option cardid_network))
    (hp : vals.Perm ref) (h1 : ∀ v ∈ ref, v = none ∨ v = some n)
    (h2 : (n = cardid_network.CARD_UNKNOWN ∧ ∀ v ∈ ref, v = none) ∨ some n ∈ ref) :
    first_match vals = n := by
  rcases h2 with ⟨hn, hall⟩ | hex
  · rw [hn]
    exact first_match_none vals (fun v hv => hall v (hp.mem_iff.1 hv))
  · exact first_match_unique n vals (fun v hv => h1 v (hp.mem_iff.1 hv)) (hp.mem_iff.2 hex)

/-- Claim C18. Rule disjointness: on a digit-only sequence holding at least
`len` digits no two of the four network rules hold together, and the four
rule blocks of `cardid_detect_network`, evaluated in any order, return the
label that the function returns. -/
theorem network_rules_disjoint (s : List Int) (len : Int)
    (hdig : ∀ c ∈ s, isdigit c = true) (hlen : len ≤ (s.length : Int)) :
    (¬ (amex_rule s len ∧ visa_rule s len) ∧ ¬ (amex_rule s len ∧ mastercard_rule s len)
      ∧ ¬ (amex_rule s len ∧ discover_rule s len) ∧ ¬ (visa_rule s len ∧ mastercard_rule s len)
      ∧ ¬ (visa_rule s len ∧ discover_rule s len)
      ∧ ¬ (mastercard_rule s len ∧ discover_rule s len))
    ∧ ∀ order : List (List Int → Int → Option cardid_network),
        order.Perm [amex_block, visa_block, mastercard_block, discover_block] →
        run_blocks order s len = cardid_detect_network s len := by
  have hchain := blocks_agree_with_chain
    (len = 15 ∧ (prefix_n s 2 len = 34 ∨ prefix_n s 2 len = 37))
    ((len = 13 ∨ len = 16 ∨ len = 19) ∧ prefix_n s 1 len = 4)
    (len = 16 ∧ (51 ≤ prefix_n s 2 len ∧ prefix_n s 2 len ≤ 55))
    (len = 16 ∧ (2221 ≤ prefix_n s 4 len ∧ prefix_n s 4 len ≤ 2720))
    ((len = 16 ∨ len = 19) ∧ prefix_n s 4 len = 6011)
    ((len = 16 ∨ len = 19) ∧ prefix_n s 2 len = 65)
    ((len = 16 ∨ len = 19) ∧ (644 ≤ prefix_n s 3 len ∧ prefix_n s 3 len ≤ 649))
    ((len = 16 ∨ len = 19) ∧ (622126 ≤ prefix_n s 6 len ∧ prefix_n s 6 len ≤ 622925))
  have hrun : ∀ order : List (List Int → Int → Option cardid_network),
      order.Perm [amex_block, visa_block, mastercard_block, discover_block] →
      (order.map (fun b => b s len)).Perm
        [amex_block s len, visa_block s len, mastercard_block s len, discover_block s len] :=
    fun order hperm => hperm.map (fun b => b s len)
  by_cases hl : len = 13 ∨ len = 15 ∨ len = 16 ∨ len = 19
  · obtain ⟨a, b, c, d, e, f, ha, hb, hc, hd, he, hf, h1, h2, h3, h4, h6⟩ :=
      prefix_value_digits s hdig (by omega)
    have e1 := prefix_n_eq_prefix_value s 1 len (by omega) hlen
    have e2 := prefix_n_eq_prefix_value s 2 len (by omega) hlen
    have e3 := prefix_n_eq_prefix_value s 3 len (by omega) hlen
    have e4 := prefix_n_eq_prefix_value s 4 len (by omega) hlen
    have e6 := prefix_n_eq_prefix_value s 6 len (by omega) hlen
    rw [e1, e2, e3, e4, e6] at hchain
    refine ⟨?_, fun order hperm => ?_⟩
    · unfold amex_rule visa_rule mastercard_rule discover_rule
      refine ⟨?_, ?_, ?_, ?_, ?_, ?_⟩ <;> omega
    · have hres := hchain (by omega) (by omega) (by omega) (by omega) (by omega) (by omega)
        (cardid_detect_network s len) (amex_block s len) (visa_block s len)
        (mastercard_block s len) (discover_block s len)
        (by unfold cardid_detect_network; rw [e1, e2, e3, e4, e6])
        (by unfold amex_block; rw [e2]) (by unfold visa_block; rw [e1])
        (by unfold mastercard_block; rw [e2, e4])
        (by unfold discover_block; rw [e2, e3, e4, e6])
      exact first_match_perm _ _ _ (hrun order hperm) hres.1 hres.2
  · have h13 : len ≠ 13 := fun h => hl (Or.inl h)
    have h15 : len ≠ 15 := fun h => hl (Or.inr (Or.inl h))
    have h16 : len ≠ 16 := fun h => hl (Or.inr (Or.inr (Or.inl h)))
    have h19 : len ≠ 19 := fun h => hl (Or.inr (Or.inr (Or.inr h)))
    refine ⟨?_, fun order hperm => ?_⟩
    · unfold amex_rule visa_rule mastercard_rule discover_rule
      simp [h13, h15, h16, h19]
    · have hres := hchain (fun h => absurd h.1 h15) (fun h => absurd h.1 h15)
        (fun h => absurd h.1 h15)
        (fun h => absurd h.1 (by simp [h13, h16, h19]))
        (fun h => absurd h.1 (by simp [h13, h16, h19]))
        (fun h => absurd h (by simp [h16]))
        (cardid_detect_network s len) (amex_block s len) (visa_block s len)
        (mastercard_block s len) (discover_block s len)
        (by unfold cardid_detect_network; rfl)
        (by unfold amex_block; rfl) (by unfold visa_block; rfl)
        (by unfold mastercard_block; rfl) (by unfold discover_block; rfl)
      exact first_match_perm _ _ _ (hrun order hperm) hres.1 hres.2

/-- Witness for claim C18: on "6011111111111117" with length 16 the blocks taken
in the reverse of the order of the source, and in a third order, return
Discover as the function does. -/
theorem network_rules_disjoint_witness :
    run_blocks [discover_block, mastercard_block, visa_block, amex_block]
        (cstr "6011111111111117") 16 = cardid_network.CARD_DISCOVER
    ∧ run_blocks [visa_block, discover_block, amex_block, mastercard_block]
        (cstr "6011111111111117") 16 = cardid_detect_network (cstr "6011111111111117") 16
    ∧ ¬ (mastercard_rule (cstr "6011111111111117") 16
          ∧ discover_rule (cstr "6011111111111117") 16) :=
  ⟨((network_rules_disjoint (cstr "6011111111111117") 16 (by decide) (by decide)).2
      [discover_block, mastercard_block, visa_block, amex_block]
      (List.Perm.symm (List.reverse_perm
        [discover_block, mastercard_block, visa_block, amex_block]))).trans (by decide),
   (network_rules_disjoint (cstr "6011111111111117") 16 (by decide) (by decide)).2
      [visa_block, discover_block, amex_block, mastercard_block]
      (((List.Perm.swap amex_block discover_block [mastercard_block]).cons visa_block).trans
        ((List.Perm.swap amex_block visa_block [discover_block, mastercard_block]).trans
          ((List.Perm.swap mastercard_block discover_block []).cons visa_block |>.cons amex_block))),
   (network_rules_disjoint (cstr "6011111111111117") 16 (by decide) (by decide)).1.2.2.2.2.2⟩

/-! ## The capacity boundary -/

/-- A text in which a character follows `out_capacity - 1` digits or more:
the loop breaks on a character, whatever it is, with the overflow flag set
and `out_capacity - 1` digits counted. -/
theorem extract_digits_halts (p q buf : List Int) (c : Int) (cap : Int) (hcap : 1 ≤ cap)
    (hnul : ∀ x ∈ p ++ c :: q, x ≠ 0)
    (hfull : cap - 1 ≤ ((p.filter (fun x => isdigit x)).length : Int)) :
    (cardid_extract_digits (some (p ++ c :: q)) (some buf) cap).1.overflowed = true
    ∧ (cardid_extract_digits (some (p ++ c :: q)) (some buf) cap).1.digit_count = cap - 1 := by
  have hp := filter_isdigit_length_le p
  have hdl : (p ++ c :: q).dropLast = p ++ (c :: q).dropLast :=
    List.dropLast_append_of_ne_nil p (List.cons_ne_nil c q)
  have hcd1 : (code_digits p).length ≤ (code_digits (p ++ c :: q).dropLast).length := by
    rw [hdl, code_digits_append, List.length_append]
    omega
  have hcd2 := code_digits_dropLast_le (p ++ c :: q)
  obtain ⟨hcount, _⟩ := extract_digits_buffer (p ++ c :: q) buf cap hnul hcap
  constructor
  · rw [extract_digits_record _ buf cap hcap]
    have hne : ¬ (p ++ c :: q = []
        ∨ ((0 : Nat) : Int) + ((code_digits (p ++ c :: q).dropLast).length : Int) < cap - 1) := by
      rintro (h | h)
      · simp at h
      · omega
    have := (extract_loop_overflowed cap (p ++ c :: q) hnul (memset_zero buf cap.toNat)
      0 false).not.2 hne
    simpa using this
  · rw [hcount, List.length_take]
    omega

/-- Claim C19. Extraction halts at the capacity boundary even on separators:
when a further character of any kind follows the point where
`capacity - 1` digits have been copied, `cardid_extract_digits` returns
`overflowed = true`; hence 19 digits followed by one more character are
reported by `cardid_analyze` as (19, false, Unknown), while the extraction
of the same 19 digits with nothing after them does not overflow. -/
theorem extract_halts_on_any_character :
    (∀ (p q buf : List Int) (c cap : Int), 1 ≤ cap → (∀ x ∈ p ++ c :: q, x ≠ 0) →
      cap - 1 ≤ ((p.filter (fun x => isdigit x)).length : Int) →
      (cardid_extract_digits (some (p ++ c :: q)) (some buf) cap).1.overflowed = true)
    ∧ (∀ (d : List Int) (c : Int) (o : cardid_result) (m : Option cardid_extract_result),
        (∀ x ∈ d, isdigit x = true) → d.length = 19 → c ≠ 0 →
        (cardid_analyze (some (d ++ [c])) (some o) m).1
            = some ⟨cardid_network.CARD_UNKNOWN, false, 19⟩
        ∧ (cardid_extract_digits (some d) (some digits_init) 20).1 = ⟨19, false, false⟩) := by
  constructor
  · intro p q buf c cap hcap hnul hfull
    exact (extract_digits_halts p q buf c cap hcap hnul hfull).1
  · intro d c o m hdig hlen hc
    have hnul : ∀ x ∈ d ++ [c], x ≠ 0 := by
      intro x hx
      simp only [List.mem_append, List.mem_singleton] at hx
      rcases hx with h | h
      · have := (isdigit_iff x).1 (hdig x h)
        omega
      · rw [h]; exact hc
    have hfilter : d.filter (fun x => isdigit x) = d := List.filter_eq_self.2 hdig
    obtain ⟨hov, hcount⟩ := extract_digits_halts d [] digits_init c 20 (by omega) hnul
      (by rw [hfilter, hlen]; norm_num)
    have h19 : (cardid_extract_digits (some (d ++ [c])) (some digits_init) 20).1.digit_count
        = 19 := by
      rw [hcount]; rfl
    constructor
    · simp only [cardid_analyze, digits_capacity]
      rw [if_pos (Or.inr hov), h19]
    · rw [extract_digits_clean d digits_init 20 hdig (by rw [hlen]; norm_num), hlen]
      rfl

/-- Witness for claim C19: the Luhn-valid 19-digit Visa number
"4111111111111111110" is reported as (19, true, Visa) without overflow; with
a trailing space, or a trailing newline, it is reported as
(19, false, Unknown) with the overflow flag set. -/
theorem extract_halts_on_any_character_witness :
    cardid_analyze (some (cstr "4111111111111111110"))
        (some ⟨cardid_network.CARD_UNKNOWN, false, 0⟩) (some ⟨0, false, false⟩)
      = (some ⟨cardid_network.CARD_VISA, true, 19⟩, some ⟨19, false, false⟩)
    ∧ cardid_analyze (some (cstr "4111111111111111110 "))
        (some ⟨cardid_network.CARD_UNKNOWN, false, 0⟩) (some ⟨0, false, false⟩)
      = (some ⟨cardid_network.CARD_UNKNOWN, false, 19⟩, some ⟨19, false, true⟩)
    ∧ (cardid_extract_digits (some (cstr "4111111111111111110\n")) (some digits_init) 20).1.overflowed
      = true :=
  ⟨by decide,
   Prod.ext
     (extract_halts_on_any_character.2 (cstr "4111111111111111110") 32
       ⟨cardid_network.CARD_UNKNOWN, false, 0⟩ (some ⟨0, false, false⟩)
       (by decide) (by decide) (by decide)).1
     (by decide),
   extract_halts_on_any_character.1 (cstr "4111111111111111110") [] digits_init 10 20
     (by decide) (by decide) (by decide)⟩

/-! ## The digits written -/

/-- Claim C20. For every present text, with characters in the range of
`char`, and every capacity of at least 1, the sequence written by
`cardid_extract_digits` is the first `min(k, capacity - 1)` digit characters
of the text in their order, `k` being the number of its digit characters,
followed by zeros up to the capacity; and `digit_count` is
`min(k, capacity - 1)`. -/
theorem extract_writes_first_digits (s buf : List Int) (cap : Int) (hcap : 1 ≤ cap)
    (hnul : ∀ c ∈ s, c ≠ 0) (hrange : ∀ c ∈ s, -128 ≤ c ∧ c ≤ 255) :
    (cardid_extract_digits (some s) (some buf) cap).1.digit_count
        = min ((s.filter (fun c => isdigit c)).length : Int) (cap - 1)
    ∧ (cardid_extract_digits (some s) (some buf) cap).2
        = some ((s.filter (fun c => isdigit c)).take
              (min (s.filter (fun c => isdigit c)).length (cap - 1).toNat)
            ++ List.replicate
              (cap.toNat - min (s.filter (fun c => isdigit c)).length (cap - 1).toNat) 0
            ++ buf.drop cap.toNat) := by
  obtain ⟨hcount, hbuffer⟩ := extract_digits_buffer s buf cap hnul hcap
  rw [code_digits_eq_filter s hrange] at hcount hbuffer
  have htake : (s.filter (fun c => isdigit c)).take
      (min (s.filter (fun c => isdigit c)).length (cap - 1).toNat)
      = (s.filter (fun c => isdigit c)).take (cap - 1).toNat := by
    rcases Nat.le_total (s.filter (fun c => isdigit c)).length (cap - 1).toNat with h | h
    · rw [Nat.min_eq_left h, List.take_of_length_le h, List.take_of_length_le (le_refl _)]
    · rw [Nat.min_eq_right h]
  have hlen : ((s.filter (fun c => isdigit c)).take (cap - 1).toNat).length
      = min (s.filter (fun c => isdigit c)).length (cap - 1).toNat := by
    rw [List.length_take, Nat.min_comm]
  constructor
  · rw [hcount, hlen]
    omega
  · rw [hbuffer, htake, hlen]

/-- Witness for claim C20: of the 12 digits of a text with other characters,
the first 9 are written at capacity 10, and all 12 at capacity 32. -/
theorem extract_writes_first_digits_witness :
    (cardid_extract_digits (some (cstr "12a34-56 78x9012")) (some (List.replicate 10 120))
        10).1.digit_count = 9
    ∧ (cardid_extract_digits (some (cstr "12a34-56 78x9012")) (some (List.replicate 10 120))
        10).2 = some (cstr "123456789" ++ [0])
    ∧ (cardid_extract_digits (some (cstr "12a34-56 78x9012")) (some (List.replicate 32 120))
        32).2 = some (cstr "123456789012" ++ List.replicate 20 0) :=
  ⟨(extract_writes_first_digits (cstr "12a34-56 78x9012") (List.replicate 10 120) 10
      (by decide) (by decide) (by decide)).1.trans (by decide),
   (extract_writes_first_digits (cstr "12a34-56 78x9012") (List.replicate 10 120) 10
      (by decide) (by decide) (by decide)).2.trans (by decide),
   (extract_writes_first_digits (cstr "12a34-56 78x9012") (List.replicate 32 120) 32
      (by decide) (by decide) (by decide)).2.trans (by decide)⟩

/-! ## The flag `found_non_digit` -/

theorem stray_char_of_digit {c : Int} (h : isdigit c = true) : stray_char c = false := by
  simp [stray_char, h]

theorem stray_char_mod (c : Int) (h : -128 ≤ c ∧ c ≤ 255) :
    stray_char (c % 256) = stray_char c := by
  have h1 := isdigit_mod_eq c h
  have h2 : isspace (c % 256) = isspace c := by
    unfold isspace
    exact decide_eq_decide.2 (by omega)
  have h3 : (c % 256 != 45) = (c != 45) := by
    by_cases hc : c = 45
    · subst hc; rfl
    · have hm : c % 256 ≠ 45 := by omega
      rw [bne_iff_ne.2 hm, bne_iff_ne.2 hc]
  simp only [stray_char, h1, h2, h3]

/-- When the loop is left at the end of the text, the flag is set exactly
by a stray character anywhere in the text. -/
theorem extract_loop_found_no_overflow (cap : Int) :
    ∀ (s : List Int), (∀ c ∈ s, c ≠ 0) → ∀ (out : List Int) (idx : Nat) (fnd : Bool),
      (extract_loop cap s out idx fnd).overflowed = false →
      (extract_loop cap s out idx fnd).found_non_digit
        = (fnd || s.any (fun c => stray_char (c % 256))) := by
  intro s
  induction s with
  | nil => intro _ out idx fnd _; simp [extract_loop]
  | cons c rest ih =>
    intro hnul out idx fnd
    have hc0 : c ≠ 0 := hnul c (List.mem_cons_self c rest)
    have hrest : ∀ x ∈ rest, x ≠ 0 := fun x hx => hnul x (List.mem_cons_of_mem c hx)
    simp only [extract_loop, hc0, if_false, List.any_cons]
    split_ifs with hov hd hother
    · intro h; simp at h
    · intro h
      rw [ih hrest _ _ _ h, stray_char_of_digit hd]
      simp
    · intro h
      have hs : stray_char (c % 256) = true := by
        simp only [stray_char, Bool.and_eq_true, Bool.not_eq_true'] at hother ⊢
        simp only [Bool.not_eq_true] at hd
        exact ⟨⟨hd, by simpa using hother.1⟩, hother.2⟩
      rw [ih hrest _ _ _ h, hs]
      simp
    · intro h
      have hs : stray_char (c % 256) = false := by
        simp only [stray_char]
        simp only [Bool.not_eq_true] at hd hother
        rw [Bool.and_assoc, hother]
        simp
      rw [ih hrest _ _ _ h, hs]
      simp

/-- When the loop is left by `break`, the text splits at the character on
which the overflow is detected: before it stand exactly the digits that fill
the room, the last character before it being the digit that used the room
up, and the flag is set exactly by a stray character before it. -/
theorem extract_loop_found_overflow (cap : Int) :
    ∀ (s : List Int), (∀ c ∈ s, c ≠ 0) → ∀ (out : List Int) (idx : Nat) (fnd : Bool),
      (idx : Int) ≤ cap - 1 →
      (extract_loop cap s out idx fnd).overflowed = true →
      ∃ (p : List Int) (c : Int) (q : List Int), s = p ++ c :: q
        ∧ (idx : Int) + ((code_digits p).length : Int) = cap - 1
        ∧ (p = [] ∨ ∃ (p0 : List Int) (x : Int), p = p0 ++ [x] ∧ isdigit (x % 256) = true)
        ∧ (extract_loop cap s out idx fnd).found_non_digit
            = (fnd || p.any (fun c => stray_char (c % 256))) := by
  intro s
  induction s with
  | nil => intro _ out idx fnd _ h; simp [extract_loop] at h
  | cons c rest ih =>
    intro hnul out idx fnd hidx
    have hc0 : c ≠ 0 := hnul c (List.mem_cons_self c rest)
    have hrest : ∀ x ∈ rest, x ≠ 0 := fun x hx => hnul x (List.mem_cons_of_mem c hx)
    simp only [extract_loop, hc0, if_false]
    split_ifs with hov hd hother
    · intro _
      refine ⟨[], c, rest, rfl, ?_, Or.inl rfl, by simp⟩
      simp [code_digits]
      omega
    · intro h
      obtain ⟨p, c', q, hs, hcount, hlast, hfnd⟩ := ih hrest _ (idx + 1) fnd
        (by push_cast; omega) h
      refine ⟨c :: p, c', q, by rw [hs]; rfl, ?_, ?_, ?_⟩
      · rw [code_digits_cons_digit c p hd]
        simp only [List.length_cons]
        push_cast at hcount ⊢
        omega
      · right
        rcases hlast with hp | ⟨p0, x, hp, hx⟩
        · exact ⟨[], c, by rw [hp]; rfl, hd⟩
        · exact ⟨c :: p0, x, by rw [hp]; rfl, hx⟩
      · rw [hfnd, List.any_cons, stray_char_of_digit hd]
        simp
    · intro h
      obtain ⟨p, c', q, hs, hcount, hlast, hfnd⟩ := ih hrest _ idx true hidx h
      have hs1 : stray_char (c % 256) = true := by
        simp only [stray_char, Bool.and_eq_true, Bool.not_eq_true'] at hother ⊢
        simp only [Bool.not_eq_true] at hd
        exact ⟨⟨hd, by simpa using hother.1⟩, hother.2⟩
      have hpne : p ≠ [] := by
        intro hp
        rw [hp] at hcount
        simp [code_digits] at hcount
        omega
      refine ⟨c :: p, c', q, by rw [hs]; rfl, ?_, ?_, ?_⟩
      · rw [code_digits_cons_other c p hd]
        exact hcount
      · right
        rcases hlast with hp | ⟨p0, x, hp, hx⟩
        · exact absurd hp hpne
        · exact ⟨c :: p0, x, by rw [hp]; rfl, hx⟩
      · rw [hfnd, List.any_cons, hs1]
        simp
    · intro h
      obtain ⟨p, c', q, hs, hcount, hlast, hfnd⟩ := ih hrest _ idx fnd hidx h
      have hs0 : stray_char (c % 256) = false := by
        simp only [stray_char]
        simp only [Bool.not_eq_true] at hd hother
        rw [Bool.and_assoc, hother]
        simp
      have hpne : p ≠ [] := by
        intro hp
        rw [hp] at hcount
        simp [code_digits] at hcount
        omega
      refine ⟨c :: p, c', q, by rw [hs]; rfl, ?_, ?_, ?_⟩
      · rw [code_digits_cons_other c p hd]
        exact hcount
      · right
        rcases hlast with hp | ⟨p0, x, hp, hx⟩
        · exact absurd hp hpne
        · exact ⟨c :: p0, x, by rw [hp]; rfl, hx⟩
      · rw [hfnd, List.any_cons, hs0]
        simp

theorem any_stray_iff (l : List Int) (h : ∀ c ∈ l, -128 ≤ c ∧ c ≤ 255) :
    l.any (fun c => stray_char (c % 256)) = true ↔ ∃ c ∈ l, stray_char c = true := by
  rw [List.any_eq_true]
  constructor
  · rintro ⟨c, hc, hs⟩
    exact ⟨c, hc, by rw [← stray_char_mod c (h c hc)]; exact hs⟩
  · rintro ⟨c, hc, hs⟩
    exact ⟨c, hc, by rw [stray_char_mod c (h c hc)]; exact hs⟩

/-- Claim C21. For every present text, with characters in the range of
`char`, and every capacity of at least 1: when the extraction does not
overflow, `found_non_digit` is true exactly when some character of the text
is neither an ASCII digit, nor whitespace, nor `'-'`; when it overflows, the
text splits at the character on which the overflow is detected (the one that
follows the digit filling the room), and `found_non_digit` is true exactly
when some character before that one is such a character. Such a character
does not stop the scan: the digits counted are the first
`min(k, capacity - 1)` of all `k` digits of the text. -/
theorem found_non_digit_iff (s buf : List Int) (cap : Int) (hcap : 1 ≤ cap)
    (hnul : ∀ c ∈ s, c ≠ 0) (hrange : ∀ c ∈ s, -128 ≤ c ∧ c ≤ 255) :
    ((cardid_extract_digits (some s) (some buf) cap).1.overflowed = false →
      ((cardid_extract_digits (some s) (some buf) cap).1.found_non_digit = true
        ↔ ∃ c ∈ s, stray_char c = true))
    ∧ ((cardid_extract_digits (some s) (some buf) cap).1.overflowed = true →
        ∃ (p : List Int) (c : Int) (q : List Int), s = p ++ c :: q
          ∧ ((p.filter (fun x => isdigit x)).length : Int) = cap - 1
          ∧ (p = [] ∨ ∃ (p0 : List Int) (x : Int), p = p0 ++ [x] ∧ isdigit x = true)
          ∧ ((cardid_extract_digits (some s) (some buf) cap).1.found_non_digit = true
              ↔ ∃ x ∈ p, stray_char x = true))
    ∧ (cardid_extract_digits (some s) (some buf) cap).1.digit_count
        = min ((s.filter (fun c => isdigit c)).length : Int) (cap - 1) := by
  rw [extract_digits_record s buf cap hcap]
  refine ⟨?_, ?_, ?_⟩
  · intro hov
    simp only at hov ⊢
    rw [extract_loop_found_no_overflow cap s hnul _ 0 false hov, Bool.false_or]
    exact any_stray_iff s hrange
  · intro hov
    simp only at hov ⊢
    obtain ⟨p, c, q, hs, hcount, hlast, hfnd⟩ :=
      extract_loop_found_overflow cap s hnul _ 0 false (by push_cast; omega) hov
    have hprange : ∀ x ∈ p, -128 ≤ x ∧ x ≤ 255 := by
      intro x hx
      exact hrange x (by rw [hs]; exact List.mem_append_left _ hx)
    refine ⟨p, c, q, hs, ?_, ?_, ?_⟩
    · rw [← code_digits_eq_filter p hprange]
      push_cast at hcount
      omega
    · rcases hlast with hp | ⟨p0, x, hp, hx⟩
      · exact Or.inl hp
      · right
        refine ⟨p0, x, hp, ?_⟩
        rw [← isdigit_mod_eq x (hprange x (by rw [hp]; simp))]
        exact hx
    · rw [hfnd, Bool.false_or]
      exact any_stray_iff p hprange
  · obtain ⟨hcount, _⟩ := extract_digits_buffer s buf cap hnul hcap
    rw [extract_digits_record s buf cap hcap] at hcount
    rw [hcount, code_digits_eq_filter s hrange, List.length_take]
    omega

/-- Witness for claim C21, on the text "12a34-56 78x9012". At capacity 32
nothing overflows and the letters set the flag. At capacity 10 the overflow
is detected on the tenth digit, after both letters, and the flag is set. At
capacity 4 it is detected on the digit '4', after 'a', and the flag is set by
'a'; at capacity 3 it is detected on 'a' itself, which is not examined, and
the flag is false. The digits after a letter are counted as far as the room
goes. -/
theorem found_non_digit_iff_witness :
    (cardid_extract_digits (some (cstr "12a34-56 78x9012")) (some (List.replicate 32 0)) 32).1
      = ⟨12, true, false⟩
    ∧ (cardid_extract_digits (some (cstr "12a34-56 78x9012")) (some (List.replicate 32 0)) 10).1
      = ⟨9, true, true⟩
    ∧ (cardid_extract_digits (some (cstr "12a34-56 78x9012")) (some (List.replicate 32 0)) 4).1
      = ⟨3, true, true⟩
    ∧ (cardid_extract_digits (some (cstr "12a34-56 78x9012")) (some (List.replicate 32 0)) 3).1
      = ⟨2, false, true⟩
    ∧ ((cardid_extract_digits (some (cstr "12a34-56 78x9012"))
          (some (List.replicate 32 0)) 32).1.found_non_digit = true
        ↔ ∃ c ∈ cstr "12a34-56 78x9012", stray_char c = true) :=
  ⟨by decide, by decide, by decide, by decide,
   (found_non_digit_iff (cstr "12a34-56 78x9012") (List.replicate 32 0) 32 (by decide)
      (by decide) (by decide)).1 (by decide)⟩

/-! ## A network implies a valid number of an allowed length -/

/-- A label returned by the chain of tests comes with one of the conditions
of that label. -/
theorem chain_label_condition (A V M1 M2 D1 D2 D3 D4 : Prop)
    [Decidable A] [Decidable V] [Decidable M1] [Decidable M2]
    [Decidable D1] [Decidable D2] [Decidable D3] [Decidable D4]
    (n : cardid_network)
    (hn : n = (if A then cardid_network.CARD_AMEX
      else if V then cardid_network.CARD_VISA
      else if M1 then cardid_network.CARD_MASTERCARD
      else if M2 then cardid_network.CARD_MASTERCARD
      else if D1 then cardid_network.CARD_DISCOVER
      else if D2 then cardid_network.CARD_DISCOVER
      else if D3 then cardid_network.CARD_DISCOVER
      else if D4 then cardid_network.CARD_DISCOVER
      else cardid_network.CARD_UNKNOWN)) :
    (n = cardid_network.CARD_AMEX → A)
    ∧ (n = cardid_network.CARD_VISA → V)
    ∧ (n = cardid_network.CARD_MASTERCARD → M1 ∨ M2)
    ∧ (n = cardid_network.CARD_DISCOVER → D1 ∨ D2 ∨ D3 ∨ D4) := by
  subst hn
  by_cases hA : A
  · simp_all
  by_cases hV : V
  · simp_all
  by_cases hM1 : M1
  · simp_all
  by_cases hM2 : M2
  · simp_all
  by_cases hD1 : D1
  · simp_all
  by_cases hD2 : D2
  · simp_all
  by_cases hD3 : D3
  · simp_all
  by_cases hD4 : D4
  · simp_all
  simp_all

/-- The length gates of `cardid_detect_network`, on any array: each label is
returned for the lengths of its block only. -/
theorem detect_network_length (s : List Int) (len : Int) :
    (cardid_detect_network s len = cardid_network.CARD_AMEX → len = 15)
    ∧ (cardid_detect_network s len = cardid_network.CARD_VISA →
        len = 13 ∨ len = 16 ∨ len = 19)
    ∧ (cardid_detect_network s len = cardid_network.CARD_MASTERCARD → len = 16)
    ∧ (cardid_detect_network s len = cardid_network.CARD_DISCOVER → len = 16 ∨ len = 19) := by
  obtain ⟨hA, hV, hM, hD⟩ := chain_label_condition
    (len = 15 ∧ (prefix_n s 2 len = 34 ∨ prefix_n s 2 len = 37))
    ((len = 13 ∨ len = 16 ∨ len = 19) ∧ prefix_n s 1 len = 4)
    (len = 16 ∧ (51 ≤ prefix_n s 2 len ∧ prefix_n s 2 len ≤ 55))
    (len = 16 ∧ (2221 ≤ prefix_n s 4 len ∧ prefix_n s 4 len ≤ 2720))
    ((len = 16 ∨ len = 19) ∧ prefix_n s 4 len = 6011)
    ((len = 16 ∨ len = 19) ∧ prefix_n s 2 len = 65)
    ((len = 16 ∨ len = 19) ∧ (644 ≤ prefix_n s 3 len ∧ prefix_n s 3 len ≤ 649))
    ((len = 16 ∨ len = 19) ∧ (622126 ≤ prefix_n s 6 len ∧ prefix_n s 6 len ≤ 622925))
    (cardid_detect_network s len) (by unfold cardid_detect_network; rfl)
  refine ⟨fun h => (hA h).1, fun h => (hV h).1, fun h => ?_, fun h => ?_⟩
  · rcases hM h with h' | h'
    · exact h'.1
    · exact h'.1
  · rcases hD h with h' | h' | h' | h'
    · exact h'.1
    · exact h'.1
    · exact h'.1
    · exact h'.1

/-- Claim C22. Whenever `cardid_analyze` writes a network other than
Unknown, the input is present, `luhn_valid` is true, the extraction did not
overflow, the length is the digit count, and it is a length that the network
allows: 15 for Amex, 16 for Mastercard, 13, 16 or 19 for Visa, 16 or 19 for
Discover. -/
theorem analyze_network_implies (input : Option (List Int)) (o : cardid_result)
    (m : Option cardid_extract_result) (r : cardid_result)
    (hr : (cardid_analyze input (some o) m).1 = some r)
    (hnet : r.network ≠ cardid_network.CARD_UNKNOWN) :
    r.luhn_valid = true
    ∧ (∃ s : List Int, input = some s
        ∧ (cardid_extract_digits (some s) (some digits_init) 20).1.overflowed = false
        ∧ r.length = (cardid_extract_digits (some s) (some digits_init) 20).1.digit_count)
    ∧ (r.network = cardid_network.CARD_AMEX → r.length = 15)
    ∧ (r.network = cardid_network.CARD_MASTERCARD → r.length = 16)
    ∧ (r.network = cardid_network.CARD_VISA → r.length = 13 ∨ r.length = 16 ∨ r.length = 19)
    ∧ (r.network = cardid_network.CARD_DISCOVER → r.length = 16 ∨ r.length = 19) := by
  cases input with
  | none =>
    have : r = ⟨cardid_network.CARD_UNKNOWN, false, 0⟩ := (Option.some.inj hr).symm
    subst this
    exact absurd rfl hnet
  | some s =>
    simp only [cardid_analyze, digits_capacity] at hr
    split_ifs at hr with h1 h2 h3 h4
    · have := (Option.some.inj hr).symm
      subst this
      exact absurd rfl hnet
    · have := (Option.some.inj hr).symm
      subst this
      exact absurd rfl hnet
    · have := (Option.some.inj hr).symm
      subst this
      exact absurd rfl hnet
    · have := (Option.some.inj hr).symm
      subst this
      obtain ⟨hA, hV, hM, hD⟩ := detect_network_length
        ((cardid_extract_digits (some s) (some digits_init) 20).2.getD [])
        (cardid_extract_digits (some s) (some digits_init) 20).1.digit_count
      have hov : (cardid_extract_digits (some s) (some digits_init) 20).1.overflowed = false := by
        cases hb : (cardid_extract_digits (some s) (some digits_init) 20).1.overflowed with
        | false => rfl
        | true => exact absurd (Or.inr hb) h1
      exact ⟨h4, ⟨s, rfl, hov, rfl⟩, hA, hM, hV, hD⟩
    · have := (Option.some.inj hr).symm
      subst this
      exact absurd rfl hnet

/-- Witness for claim C22: the Amex number "3782-822463-10005" is reported
with a network; it is reported valid, its extraction does not overflow, and
its length is 15. -/
theorem analyze_network_implies_witness :
    (cardid_analyze (some (cstr "3782-822463-10005"))
        (some ⟨cardid_network.CARD_UNKNOWN, false, 0⟩) none).1
      = some ⟨cardid_network.CARD_AMEX, true, 15⟩
    ∧ (cardid_extract_digits (some (cstr "3782-822463-10005")) (some digits_init)
        20).1.overflowed = false :=
  ⟨by decide,
   match (analyze_network_implies (some (cstr "3782-822463-10005"))
      ⟨cardid_network.CARD_UNKNOWN, false, 0⟩ none ⟨cardid_network.CARD_AMEX, true, 15⟩
      (by decide) (by decide)).2.1 with
   | ⟨_, hs, hov, _⟩ => by cases hs; exact hov⟩

/-! ## The empty range and the check digit -/

/-- Claim C23. `cardid_luhn_digits` accepts the empty range: for every `d`
and every length `n` of 0 or less it returns true, the loop body never
running (`n - 1` is computed in the integers; for the least `int` the C
expression overflows, which C leaves undefined). Empty sequences are
rejected by the caller: when the extraction counts no digit,
`cardid_analyze` writes (0, false, Unknown) through its zero-count check. -/
theorem luhn_accepts_empty_range :
    (∀ (d : List Int) (n : Int), n ≤ 0 → cardid_luhn_digits d n = true)
    ∧ (∀ (s : List Int) (o : cardid_result) (m : Option cardid_extract_result),
        (cardid_extract_digits (some s) (some digits_init) 20).1.digit_count = 0 →
        (cardid_analyze (some s) (some o) m).1
          = some ⟨cardid_network.CARD_UNKNOWN, false, 0⟩) := by
  constructor
  · intro d n hn
    have h0 : n.toNat = 0 := by omega
    simp [cardid_luhn_digits, h0, luhn_loop]
  · intro s o m hcount
    simp only [cardid_analyze, digits_capacity]
    rw [if_pos (Or.inl hcount), hcount]

/-- Witness for claim C23: lengths 0 and -3 are accepted on any array, while
`cardid_analyze` reports the empty string and a text without digits as
invalid. -/
theorem luhn_accepts_empty_range_witness :
    cardid_luhn_digits (cstr "4111111111111112") 0 = true
    ∧ cardid_luhn_digits (cstr "abc") (-3) = true
    ∧ (cardid_analyze (some (cstr "")) (some ⟨cardid_network.CARD_VISA, true, 7⟩) none).1
      = some ⟨cardid_network.CARD_UNKNOWN, false, 0⟩
    ∧ (cardid_analyze (some (cstr "- -")) (some ⟨cardid_network.CARD_VISA, true, 7⟩) none).1
      = some ⟨cardid_network.CARD_UNKNOWN, false, 0⟩ :=
  ⟨luhn_accepts_empty_range.1 (cstr "4111111111111112") 0 (by decide),
   luhn_accepts_empty_range.1 (cstr "abc") (-3) (by decide),
   luhn_accepts_empty_range.2 (cstr "") ⟨cardid_network.CARD_VISA, true, 7⟩ none (by decide),
   luhn_accepts_empty_range.2 (cstr "- -") ⟨cardid_network.CARD_VISA, true, 7⟩ none
     (by decide)⟩

/-- The weighted sum of a sequence followed by a final character: the final
character counts with its raw value, the others from position 1 on. -/
theorem luhn_weighted_sum_concat (p : List Int) (c : Int) :
    luhn_weighted_sum (p ++ [c]) = (c - 48) + luhn_sum_from 1 p.reverse := by
  unfold luhn_weighted_sum
  rw [List.reverse_append]
  simp [luhn_sum_from, luhn_weight]

/-- Claim C24. Unique check digit: for every digit-only sequence `p`, the
empty one included, exactly one digit `c` among '0'..'9' makes
`cardid_luhn_digits` accept `p` followed by `c`. -/
theorem luhn_unique_check_digit (p : List Int) (hdig : ∀ x ∈ p, isdigit x = true) :
    ∃! c : Int, isdigit c = true
      ∧ cardid_luhn_digits (p ++ [c]) ((p ++ [c]).length : Int) = true := by
  have hall : ∀ c : Int, isdigit c = true → ∀ x ∈ p ++ [c], isdigit x = true := by
    intro c hc x hx
    simp only [List.mem_append, List.mem_singleton] at hx
    rcases hx with h | h
    · exact hdig x h
    · rw [h]; exact hc
  have hiff : ∀ c : Int, isdigit c = true →
      (cardid_luhn_digits (p ++ [c]) ((p ++ [c]).length : Int) = true
        ↔ ((c - 48) + luhn_sum_from 1 p.reverse) % 10 = 0) := by
    intro c hc
    rw [luhn_digits_eq_decide _ (hall c hc), luhn_weighted_sum_concat]
    simp
  refine ⟨48 + (-(luhn_sum_from 1 p.reverse)) % 10, ⟨?_, ?_⟩, ?_⟩
  · rw [isdigit_iff]; omega
  · rw [hiff _ (by rw [isdigit_iff]; omega)]
    omega
  · rintro c ⟨hc, hacc⟩
    rw [hiff c hc] at hacc
    rw [isdigit_iff] at hc
    omega

/-- Witness for claim C24: after "411111111111111" the check digit is '1',
and no other digit is accepted. -/
theorem luhn_unique_check_digit_witness :
    cardid_luhn_digits (cstr "411111111111111" ++ [49]) 16 = true
    ∧ ∀ c : Int, isdigit c = true →
        cardid_luhn_digits (cstr "411111111111111" ++ [c]) 16 = true → c = 49 :=
  ⟨by decide,
   fun c hc hacc =>
     (luhn_unique_check_digit (cstr "411111111111111") (by decide)).unique
       ⟨hc, hacc⟩ ⟨by decide, by decide⟩⟩

/-! ## What `cardid_analyze` writes, and where -/

/-- Claim C25. With an absent input and a result record supplied,
`cardid_analyze` writes the result record only: the metadata record is left
as it was, supplied or not. With a present input (and a result record) the
metadata record, when supplied, is set to the outcome of
`cardid_extract_digits` on the 20-slot buffer, and is not created when
absent. Without a result record nothing is written at all. -/
theorem analyze_metadata_frame :
    (∀ (o : cardid_result) (m : Option cardid_extract_result),
      cardid_analyze none (some o) m
        = (some ⟨cardid_network.CARD_UNKNOWN, false, 0⟩, m))
    ∧ (∀ (s : List Int) (o : cardid_result) (m : cardid_extract_result),
        (cardid_analyze (some s) (some o) (some m)).2
          = some (cardid_extract_digits (some s) (some digits_init) 20).1)
    ∧ (∀ (s : List Int) (o : cardid_result), (cardid_analyze (some s) (some o) none).2 = none)
    ∧ (∀ (input : Option (List Int)) (m : Option cardid_extract_result),
        cardid_analyze input none m = (none, m)) := by
  refine ⟨fun _ _ => rfl, ?_, ?_, ?_⟩
  · intro s o m
    simp only [cardid_analyze, digits_capacity]
    split_ifs <;> rfl
  · intro s o
    simp only [cardid_analyze, digits_capacity]
    split_ifs <;> rfl
  · intro input m
    cases input <;> rfl

/-- Witness for claim C25: a metadata record holding (5, true, true) is left
as it was by a call with an absent input, and is set to the outcome of the
extraction by a call on "4111-1111-1111-1111". -/
theorem analyze_metadata_frame_witness :
    cardid_analyze none (some ⟨cardid_network.CARD_VISA, true, 7⟩) (some ⟨5, true, true⟩)
      = (some ⟨cardid_network.CARD_UNKNOWN, false, 0⟩, some ⟨5, true, true⟩)
    ∧ (cardid_analyze (some (cstr "4111-1111-1111-1111"))
        (some ⟨cardid_network.CARD_VISA, true, 7⟩) (some ⟨5, true, true⟩)).2
      = some ⟨16, false, false⟩ :=
  ⟨analyze_metadata_frame.1 ⟨cardid_network.CARD_VISA, true, 7⟩ (some ⟨5, true, true⟩),
   (analyze_metadata_frame.2.1 (cstr "4111-1111-1111-1111")
      ⟨cardid_network.CARD_VISA, true, 7⟩ ⟨5, true, true⟩).trans (by decide)⟩

end Cardid
